import Mathlib

/-!
Verification of the IPTV playlist pipeline (`src/main.py`, `src/checker.py`).

Python strings are modelled as `List Char` (`Str`), Python dicts as
insertion-ordered association lists with first-match lookup and
replace-in-place/append-at-end assignment (`lookupK` / `setK`), float
latencies as `ℚ`, and the network as explicit outcome parameters.
`bytes.lower`/`str.lower` is modelled as ASCII `Char.toLower` (the inputs the
claims quantify over never rely on non-ASCII case folding), and Python's
unicode-aware `\w` / `isdigit` classes are modelled as ASCII word/digit
characters plus all non-ASCII characters (resp. ASCII digits), which agrees
with Python on every character appearing in this development.
-/

abbrev Str := List Char

def str (s : String) : Str := s.toList

/-- Python `str.strip()` whitespace class (ASCII part). -/
def isPySpace (c : Char) : Bool :=
  c = ' ' || c = '\t' || c = '\n' || c = '\r' || c = '\x0b' || c = '\x0c'

/-- Python `str.strip()`. -/
def pyStrip (s : Str) : Str :=
  ((s.dropWhile isPySpace).reverse.dropWhile isPySpace).reverse

/-- Python `str.lower()` (ASCII case folding). -/
def pyLower (s : Str) : Str := s.map Char.toLower

/-- Python `str.startswith`. -/
def isPre (p s : Str) : Bool := List.isPrefixOf p s

/-- Python `needle in haystack` (substring test). -/
def strIn (needle : Str) : Str → Bool
  | [] => needle = []
  | c :: r => isPre needle (c :: r) || strIn needle r

/-- Python `str.endswith`. -/
def endsW (suffix s : Str) : Bool := List.isSuffixOf suffix s

/-- Python `content.split('\n')` (keeps empty pieces, never returns `[]`). -/
def splitNl : Str → List Str
  | [] => [[]]
  | c :: r =>
    if c = '\n' then [] :: splitNl r
    else
      match splitNl r with
      | [] => [[c]]
      | h :: t => (c :: h) :: t

/-- Python `s.split(',', 1)`: the part before the first comma, and
(optionally) the part after it. -/
def splitFirstComma : Str → Str × Option Str
  | [] => ([], none)
  | c :: r =>
    if c = ',' then ([], some r)
    else
      let p := splitFirstComma r
      (c :: p.1, p.2)

/-- Python (unicode) `\w` word-character class, restricted as described in the
file header: ASCII alphanumerics, underscore, and any non-ASCII character. -/
def isWordChar (c : Char) : Bool := c.isAlphanum || c = '_' || c.val ≥ 128

/-- Character admissible in the tail of an attribute name: `[-\w]`. -/
def isNameChar (c : Char) : Bool := isWordChar c || c = '-'

/-- Python dict lookup (first matching key). -/
def lookupK (k : Str) : List (Str × α) → Option α
  | [] => none
  | (k', v) :: rest => if k' = k then some v else lookupK k rest

/-- Python dict assignment `d[k] = v`: replaces the value in place if the key
exists, otherwise appends the binding at the end (insertion order). -/
def setK (m : List (Str × α)) (k : Str) (v : α) : List (Str × α) :=
  match m with
  | [] => [(k, v)]
  | (k', v') :: rest => if k' = k then (k, v) :: rest else (k', v') :: setK rest k v

/-- Python `d.get(k, default)`. -/
def getDflt (m : List (Str × α)) (k : Str) (dflt : α) : α :=
  (lookupK k m).getD dflt

/-- Python `d.get(k)` coerced to truthiness: `None` and `""` are falsy. -/
def getTruthy (m : List (Str × Str)) (k : Str) : Option Str :=
  match lookupK k m with
  | none => none
  | some v => if v = [] then none else some v

abbrev Info := List (Str × Str)

/-! ## Playlist parser (`src/main.py`, `parse_extinf` / `parse_m3u_content`) -/

/-- One attempt of the regex `(\w+[-\w]*)\s*=\s*"([^"]*)"` anchored at the
start of `s`.  As the character classes `\w`/`[-\w]` are disjoint from `\s`,
`=` and `"`, greedy matching without backtracking is exact here.  Returns the
captured name, the captured value and the remainder after the closing quote. -/
def tryMatchAttr (s : Str) : Option (Str × Str × Str) :=
  match s with
  | [] => none
  | c :: r =>
    if isWordChar c then
      let name := c :: r.takeWhile isNameChar
      let r1 := (r.dropWhile isNameChar).dropWhile isPySpace
      if r1.head? = some '=' then
        let r2 := r1.tail.dropWhile isPySpace
        if r2.head? = some '"' then
          let r3l := r2.tail
          let v := r3l.takeWhile (· ≠ '"')
          let rest := r3l.dropWhile (· ≠ '"')
          if rest.isEmpty then none else some (name, v, rest.tail)
        else none
      else none
    else none

/-- `re.findall` of the attribute pattern: scan left to right, skipping one
character on failure and continuing after the closing quote on success.
`fuel` bounds the scan; `findAttrs` supplies the string length, which
suffices because each step consumes at least one character. -/
def findAttrsFuel : Nat → Str → List (Str × Str)
  | 0, _ => []
  | _ + 1, [] => []
  | fuel + 1, c :: r =>
    match tryMatchAttr (c :: r) with
    | some (k, v, rest) => (k, v) :: findAttrsFuel fuel rest
    | none => findAttrsFuel fuel r

def findAttrs (s : Str) : List (Str × Str) := findAttrsFuel s.length s

/-- `parse_extinf` (src/main.py:209-230): the free-text title after the first
comma is stored first, then each `key="value"` attribute is assigned, later
assignments overwriting earlier ones as in a Python dict. -/
def parse_extinf (extinf_line : Str) : Info :=
  let parts := splitFirstComma extinf_line
  let info0 : Info :=
    match parts.2 with
    | some t => setK [] (str "title") (pyStrip t)
    | none => []
  (findAttrs parts.1).foldl (fun m kv => setK m kv.1 kv.2) info0

/-- `info.get('tvg-id') or info.get('tvg-name') or info.get('title')`
(src/main.py:177): first truthy value, `None` if all are falsy. -/
def channelIdOf (info : Info) : Option Str :=
  (getTruthy info (str "tvg-id")).orElse fun _ =>
    (getTruthy info (str "tvg-name")).orElse fun _ =>
      getTruthy info (str "title")

/-- The inner `j` scan of `parse_m3u_content` (src/main.py:184-191): find the
first line that strips to a non-empty string not starting with `#`; return
that stripped line and the lines after it. -/
def findUrl : List Str → Option (Str × List Str)
  | [] => none
  | l :: rest =>
    let s := pyStrip l
    if s = [] then findUrl rest
    else if isPre (str "#") s then findUrl rest
    else some (s, rest)

/-- The main `while i < len(lines)` loop of `parse_m3u_content`
(src/main.py:168-204), as a fuel recursion over the remaining lines: on an
`#EXTINF` line with a truthy channel id, scan forward for a URL line; on
success emit the event and resume after the URL line (`i = j + 1`), otherwise
resume with the next line (`i += 1`).  Each step consumes at least one line,
so `fuel = length` suffices. -/
def parseLoopF : Nat → List Str → List (Str × Info × Str)
  | 0, _ => []
  | _ + 1, [] => []
  | fuel + 1, l :: rest =>
    let line := pyStrip l
    if isPre (str "#EXTINF") line then
      let info := parse_extinf line
      match channelIdOf info with
      | none => parseLoopF fuel rest
      | some cid =>
        match findUrl rest with
        | some (url, rest') => (cid, info, url) :: parseLoopF fuel rest'
        | none => parseLoopF fuel rest
    else parseLoopF fuel rest

def parseLoop (lines : List Str) : List (Str × Info × Str) :=
  parseLoopF lines.length lines

/-- Accumulation of one parsed `(channel_id, info, url)` event into the
`channels` dict (src/main.py:193-198): append the URL if the id exists
(keeping the first info), else insert a fresh record. -/
def addEvent (d : List (Str × Info × List Str)) (ev : Str × Info × Str) :
    List (Str × Info × List Str) :=
  match lookupK ev.1 d with
  | some iu => setK d ev.1 (iu.1, iu.2 ++ [ev.2.2])
  | none => setK d ev.1 (ev.2.1, [ev.2.2])

/-- `parse_m3u_content` (src/main.py:158-207): strip the content, split on
newlines, require the `#EXTM3U` header, then run the line loop from line 1
and build the channels dict. -/
def parse_m3u_content (content : Str) : List (Str × Info × List Str) :=
  let lines := splitNl (pyStrip content)
  match lines with
  | [] => []
  | l0 :: rest =>
    if isPre (str "#EXTM3U") l0 then (parseLoop rest).foldl addEvent []
    else []

/-! ## Merge index (the merge loop of `main`, src/main.py:770-790) -/

/-- One step of the merge loop (src/main.py:776-780): an existing record for
`channel_id` keeps its `info` and extends its URL list; otherwise the
incoming record is inserted. -/
def mergeStep (acc : List (Str × Info × List Str)) (e : Str × Info × List Str) :
    List (Str × Info × List Str) :=
  match lookupK e.1 acc with
  | some iu => setK acc e.1 (iu.1, iu.2 ++ e.2.2)
  | none => setK acc e.1 (e.2.1, e.2.2)

/-- Merging the parsed files into `all_channels` (src/main.py:771-780, without
the `--max-channels` test cap): fold the records of each file in order. -/
def merge_channels (files : List (List (Str × Info × List Str))) :
    List (Str × Info × List Str) :=
  files.foldl (fun acc file => file.foldl mergeStep acc) []

/-- URL dedup after the merge (src/main.py:788-790):
`{url.strip() for url in urls if url.strip()}` as a `Finset`. -/
def dedupUrlSet (urls : List Str) : Finset Str :=
  ((urls.map pyStrip).filter (· ≠ [])).toFinset

/-- The final candidate-URL set of `channel_id` after merging and dedup. -/
def finalUrlSet (files : List (List (Str × Info × List Str))) (cid : Str) :
    Finset Str :=
  match lookupK cid (merge_channels files) with
  | some iu => dedupUrlSet iu.2
  | none => ∅

/-! ## Probe (`check_source`, src/main.py:618-663) -/

/-- Outcome of the underlying `session.get`: either an exception, or a
response with a status code and (lowercased by `check_source` before the
signature test; we keep the raw text) the first 10KB of content. -/
inductive HttpOutcome
  | exn : HttpOutcome
  | resp (status : Nat) (content : Str) : HttpOutcome

structure ProbeResult where
  url : Str
  valid : Bool
  latency : ℚ
deriving DecidableEq, Repr

def video_signatures : List Str :=
  [str "video/", str "mpeg", str "h264", str "h265", str "flv", str "ts"]

/-- `check_source` (src/main.py:618-663).  The wall clock is abstracted by
`elapsed`, the value of `(time.time() - start_time) * 1000` at the moment the
function returns a measured latency.  For playlist URLs the result is
`status == 200` with measured latency; for stream URLs a non-200 status or an
exception yields latency `9999`, while a 200 response is probed for video
signatures in the lowercased content and keeps the measured latency whether
or not a signature is found. -/
def check_source (url : Str) (outcome : HttpOutcome) (elapsed : ℚ) : ProbeResult :=
  match outcome with
  | .exn => ⟨url, false, 9999⟩
  | .resp status content =>
    if endsW (str ".m3u") url || endsW (str ".m3u8") url then
      ⟨url, status == 200, elapsed⟩
    else if status ≠ 200 then ⟨url, false, 9999⟩
    else
      let is_valid := video_signatures.any (fun sig => strIn sig (pyLower content))
      ⟨url, is_valid, elapsed⟩

/-! ## Selector (`organize_channels`, src/main.py:395-477) -/

structure Config where
  excluded_sources : List Str
  categories : List Str

/-- `latency * 0.5` computed on exact rationals.  `Rat.mul` is irreducible in
this toolchain's kernel, so the halving is implemented with `Rat.divInt`;
`half_eq_mul_half` below proves it equal to multiplication by `1/2`. -/
def half (q : ℚ) : ℚ := Rat.divInt q.num (2 * q.den)

/-- `should_exclude_channel` (src/main.py:395-413). -/
def should_exclude_channel (info : Info) (url : Str) (config : Config) : Bool :=
  config.excluded_sources.any (fun ex => strIn ex url)
  || (let tvg_id := getDflt info (str "tvg-id") []
      tvg_id ≠ [] && tvg_id.all Char.isDigit && tvg_id.length < 5)
  || (let group_title := getDflt info (str "group-title") []
      [str "å", str "é¢", str "è§", str "é", str "¢", str "§", str "è",
       str "æ", str "ç", str "¾", str "â"].any (fun frag => strIn frag group_title))

/-- `classify_channel` (src/main.py:479-506); each regex is an alternation of
literal fragments searched in the lowercased title. -/
def classify_channel (info : Info) (_config : Config) : Str :=
  let title := pyLower (getDflt info (str "title") [])
  if strIn (str "cctv") title || strIn (str "央视") title then str "央视频道"
  else if (strIn (str "卫视") title || strIn (str "卫星") title)
      && !(strIn (str "cctv") title) then str "卫视频道"
  else if [str "北京", str "上海", str "广东", str "江苏", str "浙江", str "湖南",
      str "山东", str "四川", str "重庆", str "天津"].any (fun f => strIn f title) then
    str "地方频道"
  else if [str "体育", str "赛事", str "奥运", str "足球", str "篮球"].any
      (fun f => strIn f title) then str "体育频道"
  else if [str "电影", str "剧集", str "影视"].any (fun f => strIn f title) then
    str "影视频道"
  else if [str "新闻", str "资讯"].any (fun f => strIn f title) then str "新闻频道"
  else if [str "少儿", str "卡通", str "动画"].any (fun f => strIn f title) then
    str "少儿频道"
  else str "其他频道"

def cdn_keywords : List Str :=
  [str "cdn", str "akamai", str "cloudflare", str "aliyun", str "tencent", str "github"]

/-- `source_priority` (src/main.py:446-450): the raw latency, halved when the
lowercased URL contains a CDN keyword. -/
def source_priority (s : Str × ℚ) : ℚ :=
  if cdn_keywords.any (fun kw => strIn kw (pyLower s.1)) then half s.2 else s.2

/-- Stable insertion used by `pySorted`. -/
def insertSorted (le : α → α → Bool) (x : α) : List α → List α
  | [] => [x]
  | y :: ys => if le x y then x :: y :: ys else y :: insertSorted le x ys

/-- Python's `list.sort(key=...)` / `sorted(..., key=...)`: a stable ascending
sort.  Stable insertion sort produces exactly the same list as any stable
sort for a total preorder `le`. -/
def pySorted (le : α → α → Bool) : List α → List α
  | [] => []
  | x :: xs => insertSorted le x (pySorted le xs)

/-- Comparison used to sort candidate sources: ascending `source_priority`. -/
def prioLe (a b : Str × ℚ) : Bool := decide (source_priority a ≤ source_priority b)

structure ChannelData where
  info : Info
  sources : List ProbeResult
deriving DecidableEq, Repr

structure OrgEntry where
  info : Info
  sources : List Str
  latency : ℚ
deriving DecidableEq, Repr

/-- Category resolution inside `organize_channels` (src/main.py:432-433):
`info.get('group-title') or classify_channel(info, config)`, written back
into the info dict. -/
def categorize (info : Info) (cfg : Config) : Info :=
  setK info (str "group-title")
    ((getTruthy info (str "group-title")).getD (classify_channel info cfg))

/-- The valid-source collection of `organize_channels` (src/main.py:435-439):
`(url, latency)` for each probe that is valid and not excluded (the exclusion
test sees the info dict after the category write-back). -/
def validSourcesOf (cfg : Config) (info2 : Info) (sources : List ProbeResult) :
    List (Str × ℚ) :=
  sources.filterMap fun s =>
    if s.valid && !(should_exclude_channel info2 s.url cfg) then some (s.url, s.latency)
    else none

/-- The per-record body of `organize_channels` (src/main.py:423-455): skip
records without a truthy title, resolve the category, filter to valid
non-excluded sources, skip if none survive, sort by `source_priority` and
keep the first `min(2, n)`, remembering the raw latency of the first kept
source. -/
def survivorEntry (cfg : Config) (e : Str × ChannelData) : Option (Str × OrgEntry) :=
  let info := e.2.info
  let title := getDflt info (str "title") []
  if title = [] then none
  else
    let info2 := categorize info cfg
    let vs := validSourcesOf cfg info2 e.2.sources
    if vs = [] then none
    else
      let best := (pySorted prioLe vs).take 2
      some (title, ⟨info2, best.map (·.1), (best.headD ([], 0)).2⟩)

/-- The `channels_by_name` accumulation of `organize_channels`
(src/main.py:457-474): on a title collision the incumbent is replaced exactly
when the incoming first latency is strictly lower. -/
def organizeStep (cfg : Config) (acc : List (Str × OrgEntry)) (e : Str × ChannelData) :
    List (Str × OrgEntry) :=
  match survivorEntry cfg e with
  | none => acc
  | some te =>
    match lookupK te.1 acc with
    | some old => if te.2.latency < old.latency then setK acc te.1 te.2 else acc
    | none => setK acc te.1 te.2

/-- `organize_channels` (src/main.py:415-477). -/
def organize_channels (sources_data : List (Str × ChannelData)) (cfg : Config) :
    List (Str × OrgEntry) :=
  sources_data.foldl (organizeStep cfg) []

/-- The survivors of `sources_data` whose title is `name`, in processing
order; the value `organize_channels` keeps for `name` is a fold of the
collision rule over this list. -/
def candsFor (cfg : Config) (sources_data : List (Str × ChannelData)) (name : Str) :
    List OrgEntry :=
  sources_data.filterMap fun e =>
    match survivorEntry cfg e with
    | some te => if te.1 = name then some te.2 else none
    | none => none

/-- The first element attaining the minimal `latency` (the fixpoint of the
"replace only if strictly faster" collision rule). -/
def firstMinBy (c : List OrgEntry) : Option OrgEntry :=
  c.find? fun e => c.all fun x => decide (e.latency ≤ x.latency)

/-! ## Categorizer & sorter (`sort_channels_by_category`, src/main.py:508-551) -/

def digitsVal (l : Str) : Nat :=
  l.foldl (fun n c => 10 * n + (c.toNat - '0'.toNat)) 0

/-- One anchored attempt of `re.search(r'CCTV-?(\d+)', name, re.IGNORECASE)`:
the literal `cctv` (case-insensitive), an optional dash, then a maximal
non-empty digit run.  If the dash is present but no digit follows, dropping
the optional dash cannot help (the dash itself is not a digit), so the
attempt fails. -/
def cctvMatchAt (s : Str) : Option Nat :=
  match s with
  | c1 :: c2 :: c3 :: c4 :: r =>
    if c1.toLower = 'c' && c2.toLower = 'c' && c3.toLower = 't' && c4.toLower = 'v' then
      match r with
      | '-' :: rr =>
        match rr with
        | d :: _ => if d.isDigit then some (digitsVal (rr.takeWhile Char.isDigit)) else none
        | [] => none
      | d :: _ => if d.isDigit then some (digitsVal (r.takeWhile Char.isDigit)) else none
      | [] => none
    else none
  | _ => none

/-- `re.search`: leftmost successful attempt. -/
def cctvSearch : Str → Option Nat
  | [] => none
  | c :: r =>
    match cctvMatchAt (c :: r) with
    | some n => some n
    | none => cctvSearch r

/-- `extract_cctv_number` (src/main.py:546-551): the matched number, or the
sentinel `999` when the pattern does not occur. -/
def extract_cctv_number (channel_name : Str) : Nat :=
  (cctvSearch channel_name).getD 999

/-- Python `<=` on strings: lexicographic by code point. -/
def pyStrLe : Str → Str → Bool
  | [], _ => true
  | _ :: _, [] => false
  | a :: as_, b :: bs =>
    if a.val < b.val then true
    else if b.val < a.val then false
    else pyStrLe as_ bs

/-- `data["info"].get("group-title", "其他频道")` (src/main.py:517). -/
def catOf (e : OrgEntry) : Str := getDflt e.info (str "group-title") (str "其他频道")

/-- One step of the grouping loop (src/main.py:518-520). -/
def groupStep (acc : List (Str × List (Str × OrgEntry))) (p : Str × OrgEntry) :
    List (Str × List (Str × OrgEntry)) :=
  match lookupK (catOf p.2) acc with
  | some l => setK acc (catOf p.2) (l ++ [p])
  | none => setK acc (catOf p.2) [p]

/-- Grouping by category (src/main.py:515-520): a dict from category to the
channels carrying it, in encounter order. -/
def groupByCategory (channels : List (Str × OrgEntry)) :
    List (Str × List (Str × OrgEntry)) :=
  channels.foldl groupStep []

/-- Python `del d[k]` on an association list. -/
def removeK (k : Str) : List (Str × α) → List (Str × α)
  | [] => []
  | (k', v) :: rest => if k' = k then rest else (k', v) :: removeK k rest

def cctvLe (x y : Str × OrgEntry) : Bool :=
  decide (extract_cctv_number x.1 ≤ extract_cctv_number y.1)

def nameLe (x y : Str × OrgEntry) : Bool := pyStrLe x.1 y.1

/-- Per-category sort (src/main.py:524-531): the CCTV category by extracted
number, every other category lexicographically by channel name; Python's
`sorted` is stable. -/
def sortGroupList (cat : Str) (l : List (Str × OrgEntry)) : List (Str × OrgEntry) :=
  if cat = str "央视频道" then pySorted cctvLe l else pySorted nameLe l

/-- One step of the configured-category emission (src/main.py:536-539):
`if cat in sorted_categories: final.extend(...); del sorted_categories[cat]`. -/
def assembleStep (st : List (Str × OrgEntry) × List (Str × List (Str × OrgEntry)))
    (cat : Str) : List (Str × OrgEntry) × List (Str × List (Str × OrgEntry)) :=
  match lookupK cat st.2 with
  | some l => (st.1 ++ l, removeK cat st.2)
  | none => st

/-- `sort_channels_by_category` (src/main.py:508-544): group, sort each
group, emit the configured categories in configuration order (deleting them
from the dict), then the remaining categories sorted by label. -/
def sort_channels_by_category (channels : List (Str × OrgEntry)) (config : Config) :
    List (Str × OrgEntry) :=
  let sortedGroups := (groupByCategory channels).map fun g => (g.1, sortGroupList g.1 g.2)
  let st := config.categories.foldl assembleStep ([], sortedGroups)
  (pySorted pyStrLe (st.2.map (·.1))).foldl
    (fun acc c => acc ++ getDflt st.2 c []) st.1

/-! ## Serializer (`generate_m3u`, src/main.py:553-581) -/

/-- The `#EXTINF` line written by `generate_m3u` (src/main.py:570). -/
def extinfLineOf (channel_name : Str) (e : OrgEntry) : Str :=
  str "#EXTINF:-1 group-title=\"" ++ getDflt e.info (str "group-title") (str "其他频道")
    ++ str "\" tvg-id=\"" ++ getDflt e.info (str "tvg-id") []
    ++ str "\" tvg-logo=\"" ++ getDflt e.info (str "tvg-logo") []
    ++ str "\"," ++ channel_name

/-- The block of lines written for one channel (src/main.py:562-578). -/
def chLinesOf (p : Str × OrgEntry) : List Str :=
  [extinfLineOf p.1 p.2, p.2.sources.headD []]
    ++ (if p.2.sources.length > 1 then [str "#EXTBURL:" ++ p.2.sources.getD 1 []] else [])

/-- Each written line is terminated by `\n`. -/
def joinLinesNl (lines : List Str) : Str :=
  lines.foldr (fun l acc => l ++ '\n' :: acc) []

/-- `generate_m3u` (src/main.py:553-581), as the full file content. -/
def generate_m3u (sorted_channels : List (Str × OrgEntry)) : Str :=
  joinLinesNl (str "#EXTM3U" :: sorted_channels.flatMap chLinesOf)

/-- The `(channel key, primary URL)` pairs of a parsed channels dict. -/
def parsedPairs (d : List (Str × Info × List Str)) : List (Str × Str) :=
  d.map fun r => (r.1, r.2.2.headD [])

/-- The `(channel key, primary URL)` pairs of an organized collection. -/
def renderedPairs (chans : List (Str × OrgEntry)) : List (Str × Str) :=
  chans.map fun p => (p.1, p.2.sources.headD [])

/-! ## The alternative checker (`IPTVSourceChecker._check_source`, src/checker.py:78-133) -/

inductive FfprobeOutcome
  | exn | timeout | badReturn | jsonError | noVideo | video

/-- `IPTVSourceChecker._check_source` (src/checker.py:78-133): every failure
mode returns `(False, float('inf'))`; only a stream with a video codec
returns `(True, latency)`. `float('inf')` is modelled as `⊤` in `WithTop ℚ`,
which is exactly its ordering behaviour among floats. -/
def checker_check_source (outcome : FfprobeOutcome) (latency : ℚ) : Bool × WithTop ℚ :=
  match outcome with
  | .video => (true, (latency : WithTop ℚ))
  | _ => (false, ⊤)

/-- The ranking the claim text of C1 describes: the valid, non-excluded
candidates sorted ascending by raw latency, the first `min(K, n)` kept
(written from the spec's words for comparison with `survivorEntry`). -/
def claimLatencyRankedTake (vs : List (Str × ℚ)) : List Str :=
  ((pySorted (fun a b => decide (a.2 ≤ b.2)) vs).take 2).map (·.1)

/-! ## Named concrete inputs and auxiliary definitions for the claim theorems -/

/-- The `(info, urls)` payloads of the records carrying `cid`, in merge
order. -/
def entriesFor (cid : Str) (entries : List (Str × Info × List Str)) :
    List (Info × List Str) :=
  entries.filterMap fun e => if e.1 = cid then some e.2 else none

/-- The collision rule applied to an optional incumbent and a list of
arriving survivors: an arrival replaces the incumbent exactly when its first
latency is strictly lower. -/
def mergeFoldOpt (o : Option OrgEntry) (c : List OrgEntry) : Option OrgEntry :=
  c.foldl
    (fun o e =>
      match o with
      | none => some e
      | some old => if e.latency < old.latency then some e else some old)
    o

def cfg0 : Config := ⟨[], []⟩

def tieA : Str × ChannelData :=
  (str "id1", ⟨[(str "title", str "NewsOne")], [⟨str "http://a/1", true, 5⟩]⟩)

def tieB : Str × ChannelData :=
  (str "id2", ⟨[(str "title", str "NewsOne")], [⟨str "http://b/1", true, 5⟩]⟩)

def slowB : Str × ChannelData :=
  (str "id2", ⟨[(str "title", str "NewsOne")], [⟨str "http://b/1", true, 7⟩]⟩)

def cdnData : List (Str × ChannelData) :=
  [(str "id1", ⟨[(str "title", str "News1")],
    [⟨str "http://cdn.example/a", true, 100⟩, ⟨str "http://plain.example/b", true, 60⟩]⟩)]

def newsEntry : OrgEntry :=
  ⟨[(str "title", str "News1"), (str "group-title", str "其他频道")],
   [str "http://cdn.example/a", str "http://plain.example/b"], 100⟩

def cctvEnt : OrgEntry := ⟨[(str "group-title", str "央视频道")], [str "http://x"], 1⟩

def tvgChan : Str × OrgEntry :=
  (str "A",
   ⟨[(str "title", str "A"), (str "tvg-id", str "X"), (str "group-title", str "G")],
    [str "u:1"], 5⟩)

/-- The written lines joined with `\n` separators (no trailing newline);
`joinLinesNl lines = joinSepNl lines ++ "\n"` for non-empty `lines`, and the
outer `content.strip()` removes exactly that trailing newline. -/
def joinSepNl : List Str → Str
  | [] => []
  | [l] => l
  | l :: rest => l ++ '\n' :: joinSepNl rest

/-- Constraints on a URL string under which the written line survives the
strip/split/scan of the parser unchanged. -/
abbrev goodUrl (u : Str) : Prop :=
  pyStrip u = u ∧ u ≠ [] ∧ isPre (str "#") u = false ∧ '\n' ∉ u

/-- Constraints on an attribute value under which the quoted rendering is
re-scanned verbatim: no quote, no comma, no newline. -/
abbrev goodText (s : Str) : Prop := '"' ∉ s ∧ ',' ∉ s ∧ '\n' ∉ s

/-- A written line that survives the outer `content.strip()` and the
newline split unchanged. -/
abbrev goodLine (l : Str) : Prop := pyStrip l = l ∧ l ≠ [] ∧ '\n' ∉ l

/-- Well-formedness of one organized channel for the render/re-parse round
trip: stripped non-empty newline-free name, an empty (or absent) `tvg-id`
attribute, clean `group-title`/`tvg-logo` values, and at least one clean
source URL. -/
abbrev goodChan (p : Str × OrgEntry) : Prop :=
  pyStrip p.1 = p.1 ∧ p.1 ≠ [] ∧ '\n' ∉ p.1 ∧
  getDflt p.2.info (str "tvg-id") [] = [] ∧
  goodText (getDflt p.2.info (str "group-title") (str "其他频道")) ∧
  goodText (getDflt p.2.info (str "tvg-logo") []) ∧
  p.2.sources ≠ [] ∧ (∀ u ∈ p.2.sources, goodUrl u)

/-- The attribute map that `parse_extinf` recovers from the line written
for channel `p` (when the rendered `tvg-id` value is empty). -/
def renderedInfo (p : Str × OrgEntry) : Info :=
  [(str "title", p.1),
   (str "group-title", getDflt p.2.info (str "group-title") (str "其他频道")),
   (str "tvg-id", []),
   (str "tvg-logo", getDflt p.2.info (str "tvg-logo") [])]

def c9Chan : Str × OrgEntry :=
  (str "CCTV1",
   ⟨[(str "group-title", str "央视频道"), (str "tvg-logo", str "logo.png")],
    [str "http://a/1", str "http://b/2"], 3⟩)

theorem lookupK_setK_self (m : List (Str × α)) (k : Str) (v : α) :
    lookupK k (setK m k v) = some v := by
  induction m with
  | nil => simp [setK, lookupK]
  | cons hd tl ih =>
    obtain ⟨k', v'⟩ := hd
    by_cases h : k' = k
    · simp [setK, h, lookupK]
    · simp [setK, h, lookupK, ih]

theorem lookupK_setK_ne (m : List (Str × α)) (k k' : Str) (v : α) (h : k' ≠ k) :
    lookupK k' (setK m k v) = lookupK k' m := by
  induction m with
  | nil =>
    simp only [setK, lookupK]
    rw [if_neg (Ne.symm h)]
  | cons hd tl ih =>
    obtain ⟨k₀, v₀⟩ := hd
    by_cases h₀ : k₀ = k
    · subst h₀
      simp only [setK, if_pos rfl, lookupK]
      rw [if_neg (Ne.symm h), if_neg (Ne.symm h)]
    · simp only [setK, if_neg h₀, lookupK]
      by_cases h₁ : k₀ = k'
      · simp [h₁]
      · simp [h₁, ih]

theorem half_eq_mul_half (q : ℚ) : half q = q * (1 / 2) := by
  rw [half, Rat.divInt_eq_div]
  push_cast
  rw [mul_comm 2 (q.den : ℚ), ← div_div, Rat.num_div_den]
  ring

/-! ## C5: probe failure latencies -/

/-- C5 counterexample: `check_source` on a 200 response with no video
signature returns `valid = false` with the measured finite latency (500ms
here), and a later valid probe (600ms) sorts after it — so the failed probe's
latency is not a sentinel that sorts after every finite valid latency, and it
is not infinite. -/
theorem c5_counterexample :
    (check_source (str "http://a/s") (.resp 200 (str "junk")) 500).valid = false
    ∧ (check_source (str "http://a/s") (.resp 200 (str "junk")) 500).latency = 500
    ∧ (check_source (str "http://b/s") (.resp 200 (str "xMPEGx")) 600).valid = true
    ∧ (check_source (str "http://a/s") (.resp 200 (str "junk")) 500).latency
        < (check_source (str "http://b/s") (.resp 200 (str "xMPEGx")) 600).latency := by
  decide

/-- C5 amended: in `check_source` (src/main.py) every failed probe does get
`valid = false`, but its latency is either the finite placeholder `9999`
(exception, or non-200 on a stream URL) or the measured elapsed time (no
video signature in a 200 response, or non-200 on a playlist URL) — not an
infinite sentinel.  Only the separate `checker.py` implementation returns the
infinite sentinel (`float('inf')`, modelled as `⊤`) for every failure. -/
theorem c5_amended_theorem (url : Str) (outcome : HttpOutcome) (elapsed : ℚ) :
    ((check_source url outcome elapsed).valid = false →
      (check_source url outcome elapsed).latency = 9999
      ∨ (check_source url outcome elapsed).latency = elapsed)
    ∧ (outcome = .exn → check_source url outcome elapsed = ⟨url, false, 9999⟩)
    ∧ (∀ fo : FfprobeOutcome, ∀ lat : ℚ,
        (checker_check_source fo lat).1 = false → (checker_check_source fo lat).2 = ⊤) := by
  refine ⟨?_, ?_, ?_⟩
  · intro _
    cases outcome with
    | exn => left; rfl
    | resp status content =>
      by_cases hm : (endsW (str ".m3u") url || endsW (str ".m3u8") url) = true
      · right
        simp [check_source, hm]
      · by_cases hs : status = 200
        · right
          simp [check_source, hm, hs]
        · left
          simp [check_source, hm, hs]
  · intro h
    subst h
    rfl
  · intro fo lat h
    cases fo <;> simp_all [checker_check_source]

/-- Witness for `c5_amended_theorem` at a concrete failed probe. -/
theorem c5_witness :
    (check_source (str "http://a/s") (.resp 200 (str "junk")) 500).latency = 9999
    ∨ (check_source (str "http://a/s") (.resp 200 (str "junk")) 500).latency = 500 :=
  (c5_amended_theorem (str "http://a/s") (.resp 200 (str "junk")) 500).1 (by decide)

/-! ## C3 / C4: merge index -/

theorem merge_channels_eq_foldl_flatten (files : List (List (Str × Info × List Str))) :
    merge_channels files = files.flatten.foldl mergeStep [] := by
  suffices h : ∀ (fs : List (List (Str × Info × List Str))) acc,
      fs.foldl (fun a file => file.foldl mergeStep a) acc = fs.flatten.foldl mergeStep acc by
    exact h files []
  intro fs
  induction fs with
  | nil => intro acc; rfl
  | cons f fs ih =>
    intro acc
    simp [List.foldl_append, ih]

theorem lookupK_foldl_mergeStep (entries : List (Str × Info × List Str))
    (acc : List (Str × Info × List Str)) (cid : Str) :
    lookupK cid (entries.foldl mergeStep acc) =
      match lookupK cid acc with
      | some iu => some (iu.1, iu.2 ++ (entriesFor cid entries).flatMap (·.2))
      | none =>
        match entriesFor cid entries with
        | [] => none
        | (i, us) :: rest => some (i, us ++ rest.flatMap (·.2)) := by
  induction entries generalizing acc with
  | nil =>
    cases h : lookupK cid acc <;> simp [entriesFor, h]
  | cons e rest ih =>
    by_cases he : e.1 = cid
    · have hfor : entriesFor cid (e :: rest) = e.2 :: entriesFor cid rest := by
        simp [entriesFor, he]
      cases hacc : lookupK cid acc with
      | some iu =>
        have hstep : (e :: rest).foldl mergeStep acc =
            rest.foldl mergeStep (setK acc cid (iu.1, iu.2 ++ e.2.2)) := by
          simp only [List.foldl_cons, mergeStep, he, hacc]
        rw [hstep, ih, lookupK_setK_self, hfor]
        cases hr : entriesFor cid rest <;> simp [List.flatMap]
      | none =>
        have hstep : (e :: rest).foldl mergeStep acc =
            rest.foldl mergeStep (setK acc cid (e.2.1, e.2.2)) := by
          simp only [List.foldl_cons, mergeStep, he, hacc]
        rw [hstep, ih, lookupK_setK_self, hfor]
    · have hfor : entriesFor cid (e :: rest) = entriesFor cid rest := by
        simp [entriesFor, he]
      have hstep : lookupK cid (mergeStep acc e) = lookupK cid acc := by
        unfold mergeStep
        cases h : lookupK e.1 acc <;>
          exact lookupK_setK_ne _ _ _ _ fun hh => he hh.symm
      have : (e :: rest).foldl mergeStep acc = rest.foldl mergeStep (mergeStep acc e) := rfl
      rw [this, ih, hstep, hfor]

theorem mem_flatMap_entriesFor (files : List (List (Str × Info × List Str)))
    (cid : Str) (v : Str) :
    v ∈ (entriesFor cid files.flatten).flatMap (·.2) ↔
      ∃ file ∈ files, ∃ e ∈ file, e.1 = cid ∧ v ∈ e.2.2 := by
  simp only [List.mem_flatMap, entriesFor, List.mem_filterMap, List.mem_flatten]
  constructor
  · rintro ⟨p, ⟨e, ⟨⟨file, hfile, he⟩, hif⟩⟩, hv⟩
    by_cases hc : e.1 = cid
    · refine ⟨file, hfile, e, he, hc, ?_⟩
      simp only [if_pos hc] at hif
      cases hif
      exact hv
    · simp [hc] at hif
  · rintro ⟨file, hfile, e, he, hc, hv⟩
    exact ⟨e.2, ⟨e, ⟨⟨file, hfile, he⟩, by simp [hc]⟩⟩, hv⟩

theorem mem_finalUrlSet (files : List (List (Str × Info × List Str))) (cid u : Str) :
    u ∈ finalUrlSet files cid ↔
      ∃ file ∈ files, ∃ e ∈ file, e.1 = cid ∧ ∃ v ∈ e.2.2, pyStrip v = u ∧ u ≠ [] := by
  have hmain := fun v => mem_flatMap_entriesFor files cid v
  unfold finalUrlSet
  rw [merge_channels_eq_foldl_flatten, lookupK_foldl_mergeStep]
  cases hef : entriesFor cid files.flatten with
  | nil =>
    simp only [lookupK, Finset.not_mem_empty, false_iff]
    rintro ⟨file, hfile, e, he, hc, v, hv, _⟩
    have : v ∈ (entriesFor cid files.flatten).flatMap (·.2) :=
      (hmain v).mpr ⟨file, hfile, e, he, hc, hv⟩
    rw [hef] at this
    simp [List.flatMap] at this
  | cons p rest =>
    obtain ⟨i, us⟩ := p
    simp only [lookupK]
    have hurls : us ++ rest.flatMap (·.2) = (entriesFor cid files.flatten).flatMap (·.2) := by
      rw [hef, List.flatMap_cons]
    constructor
    · intro hu
      simp only [dedupUrlSet, List.mem_toFinset, List.mem_filter, List.mem_map] at hu
      obtain ⟨⟨v, hv, hsv⟩, hne⟩ := hu
      rw [hurls] at hv
      obtain ⟨file, hfile, e, he, hc, hv'⟩ := (hmain v).mp hv
      exact ⟨file, hfile, e, he, hc, v, hv', hsv, by simpa using hne⟩
    · rintro ⟨file, hfile, e, he, hc, v, hv, hsv, hne⟩
      have : v ∈ us ++ rest.flatMap (·.2) := by
        rw [hurls]
        exact (hmain v).mpr ⟨file, hfile, e, he, hc, hv⟩
      simp only [dedupUrlSet, List.mem_toFinset, List.mem_filter, List.mem_map]
      exact ⟨⟨v, this, hsv⟩, by simpa using hne⟩

/-- C3 (confirmed): the final candidate-URL set of any channel id — candidate
URLs compared as exact strings after stripping whitespace — does not depend
on the order in which the parsed playlists are merged. -/
theorem c3_theorem (files files' : List (List (Str × Info × List Str)))
    (hperm : files.Perm files') (cid : Str) :
    finalUrlSet files cid = finalUrlSet files' cid := by
  ext u
  rw [mem_finalUrlSet, mem_finalUrlSet]
  exact ⟨fun ⟨f, hf, rest⟩ => ⟨f, hperm.mem_iff.mp hf, rest⟩,
         fun ⟨f, hf, rest⟩ => ⟨f, hperm.mem_iff.mpr hf, rest⟩⟩

/-- Witness for `c3_theorem`: two concrete single-channel files merged in the
two orders. -/
theorem c3_witness :
    finalUrlSet
      [[(str "cctv1", ([(str "title", str "CCTV-1")], [str "http://u1 "]))],
       [(str "cctv1", ([(str "tvg-id", str "cctv1")], [str "http://u2"]))]]
      (str "cctv1") =
    finalUrlSet
      [[(str "cctv1", ([(str "tvg-id", str "cctv1")], [str "http://u2"]))],
       [(str "cctv1", ([(str "title", str "CCTV-1")], [str "http://u1 "]))]]
      (str "cctv1") :=
  c3_theorem _ _ (List.Perm.swap _ _ _) (str "cctv1")

/-- C4 counterexample: merging a second record for `cctv1` that carries a
`tvg-logo` attribute leaves the merged attributes without `tvg-logo` — the
incoming attribute map is discarded wholesale, so attribute keys present only
in the incoming record are NOT added. -/
theorem c4_counterexample :
    lookupK (str "cctv1")
      (merge_channels
        [[(str "cctv1", ([(str "title", str "CCTV-1")], [str "http://u1"]))],
         [(str "cctv1",
           ([(str "title", str "CCTV-1"), (str "tvg-logo", str "http://logo")],
            [str "http://u2"]))]]) =
      some ([(str "title", str "CCTV-1")], [str "http://u1", str "http://u2"])
    ∧ lookupK (str "tvg-logo") ([(str "title", str "CCTV-1")] : Info) = none
    ∧ lookupK (str "tvg-logo")
        ([(str "title", str "CCTV-1"), (str "tvg-logo", str "http://logo")] : Info) =
        some (str "http://logo") := by
  decide

/-- C4 amended: when records of the same ChannelKey are merged, the merged
record keeps the attribute map of the FIRST record unchanged (existing keys
are indeed never overwritten), and the attribute maps of all later records —
including keys absent from the first — are discarded entirely; only their
candidate URLs are appended. -/
theorem c4_amended_theorem (files : List (List (Str × Info × List Str)))
    (cid : Str) (i : Info) (us : List Str) (rest : List (Info × List Str))
    (h : entriesFor cid files.flatten = (i, us) :: rest) :
    lookupK cid (merge_channels files) = some (i, us ++ rest.flatMap (·.2)) := by
  rw [merge_channels_eq_foldl_flatten, lookupK_foldl_mergeStep]
  simp only [lookupK, h]

/-- Witness for `c4_amended_theorem` on the files of `c4_counterexample`. -/
theorem c4_witness :
    lookupK (str "cctv1")
      (merge_channels
        [[(str "cctv1", ([(str "title", str "CCTV-1")], [str "http://u1"]))],
         [(str "cctv1",
           ([(str "title", str "CCTV-1"), (str "tvg-logo", str "http://logo")],
            [str "http://u2"]))]]) =
      some ([(str "title", str "CCTV-1")],
        [str "http://u1"] ++
          List.flatMap
            [(([(str "title", str "CCTV-1"), (str "tvg-logo", str "http://logo")],
               [str "http://u2"]) : Info × List Str)] (·.2)) :=
  c4_amended_theorem _ _ _ _ _ (by decide)

/-! ## C1 / C2 / C10: selector fold lemmas -/

theorem lookupK_organize_foldl (cfg : Config) (l : List (Str × ChannelData))
    (acc : List (Str × OrgEntry)) (name : Str) :
    lookupK name (l.foldl (organizeStep cfg) acc) =
      mergeFoldOpt (lookupK name acc) (candsFor cfg l name) := by
  induction l generalizing acc with
  | nil => simp [candsFor, mergeFoldOpt]
  | cons e l ih =>
    have hfold : (e :: l).foldl (organizeStep cfg) acc =
        l.foldl (organizeStep cfg) (organizeStep cfg acc e) := rfl
    rw [hfold, ih]
    cases hse : survivorEntry cfg e with
    | none =>
      have h1 : organizeStep cfg acc e = acc := by simp [organizeStep, hse]
      have h2 : candsFor cfg (e :: l) name = candsFor cfg l name := by
        simp [candsFor, hse]
      rw [h1, h2]
    | some te =>
      by_cases hname : te.1 = name
      · have h2 : candsFor cfg (e :: l) name = te.2 :: candsFor cfg l name := by
          simp [candsFor, hse, hname]
        have h1 : lookupK name (organizeStep cfg acc e) =
            match lookupK name acc with
            | none => some te.2
            | some old => if te.2.latency < old.latency then some te.2 else some old := by
          subst hname
          simp only [organizeStep, hse]
          cases hacc : lookupK te.1 acc with
          | none => simp [hacc, lookupK_setK_self]
          | some old =>
            by_cases hlt : te.2.latency < old.latency
            · simp [hacc, hlt, lookupK_setK_self]
            · simp [hacc, hlt]
        rw [h1, h2]
        cases hacc : lookupK name acc <;> simp [mergeFoldOpt]
      · have h2 : candsFor cfg (e :: l) name = candsFor cfg l name := by
          simp [candsFor, hse, hname]
        have h1 : lookupK name (organizeStep cfg acc e) = lookupK name acc := by
          simp only [organizeStep, hse]
          cases hacc : lookupK te.1 acc with
          | none => exact lookupK_setK_ne _ _ _ _ fun hh => hname hh.symm
          | some old =>
            by_cases hlt : te.2.latency < old.latency
            · simp only [hlt, if_pos]
              exact lookupK_setK_ne _ _ _ _ fun hh => hname hh.symm
            · simp [hlt]
        rw [h1, h2]

theorem lookupK_organize (cfg : Config) (l : List (Str × ChannelData)) (name : Str) :
    lookupK name (organize_channels l cfg) = mergeFoldOpt none (candsFor cfg l name) := by
  unfold organize_channels
  rw [lookupK_organize_foldl]
  rfl

theorem mergeFoldOpt_some_decomp (c : List OrgEntry) (a e : OrgEntry)
    (h : mergeFoldOpt (some a) c = some e) :
    ∃ c₁ c₂, a :: c = c₁ ++ e :: c₂ ∧ (∀ x ∈ c₁, e.latency < x.latency)
      ∧ ∀ x ∈ c₂, e.latency ≤ x.latency := by
  induction c generalizing a with
  | nil =>
    simp only [mergeFoldOpt, List.foldl_nil, Option.some.injEq] at h
    exact ⟨[], [], by simp [h], by simp, by simp⟩
  | cons x c ih =>
    by_cases hx : x.latency < a.latency
    · have hh : mergeFoldOpt (some x) c = some e := by
        simpa [mergeFoldOpt, hx] using h
      obtain ⟨c₁, c₂, hdec, h₁, h₂⟩ := ih x hh
      cases c₁ with
      | nil =>
        simp only [List.nil_append, List.cons.injEq] at hdec
        obtain ⟨hex, hc⟩ := hdec
        subst hex
        exact ⟨[a], c₂, by simp [hc], by simpa using hx, h₂⟩
      | cons y c₁' =>
        simp only [List.cons_append, List.cons.injEq] at hdec
        obtain ⟨hyx, hc⟩ := hdec
        subst hyx
        refine ⟨a :: x :: c₁', c₂, by simp [hc], ?_, h₂⟩
        intro z hz
        rcases List.mem_cons.mp hz with hz | hz
        · subst hz
          exact lt_trans (h₁ x (List.mem_cons_self _ _)) hx
        · exact h₁ z hz
    · have hh : mergeFoldOpt (some a) c = some e := by
        simpa [mergeFoldOpt, hx] using h
      obtain ⟨c₁, c₂, hdec, h₁, h₂⟩ := ih a hh
      cases c₁ with
      | nil =>
        simp only [List.nil_append, List.cons.injEq] at hdec
        obtain ⟨hex, hc⟩ := hdec
        subst hex
        refine ⟨[], x :: c₂, by simp [hc], by simp, ?_⟩
        intro z hz
        rcases List.mem_cons.mp hz with hz | hz
        · subst hz
          exact le_of_not_lt hx
        · exact h₂ z hz
      | cons y c₁' =>
        simp only [List.cons_append, List.cons.injEq] at hdec
        obtain ⟨hya, hc⟩ := hdec
        rw [← hya] at h₁
        refine ⟨a :: x :: c₁', c₂, by simp [hc], ?_, h₂⟩
        intro z hz
        rcases List.mem_cons.mp hz with hz | hz
        · rw [hz]
          exact h₁ a (List.mem_cons_self _ _)
        · rcases List.mem_cons.mp hz with hz | hz
          · rw [hz]
            exact lt_of_lt_of_le (h₁ a (List.mem_cons_self _ _)) (le_of_not_lt hx)
          · exact h₁ z (List.mem_cons.mpr (Or.inr hz))

theorem mergeFoldOpt_none_cons (e : OrgEntry) (c : List OrgEntry) :
    mergeFoldOpt none (e :: c) = mergeFoldOpt (some e) c := rfl

theorem mem_candsFor (cfg : Config) (l : List (Str × ChannelData)) (name : Str)
    (e : OrgEntry) :
    e ∈ candsFor cfg l name ↔ ∃ d ∈ l, survivorEntry cfg d = some (name, e) := by
  simp only [candsFor, List.mem_filterMap]
  constructor
  · rintro ⟨d, hd, hf⟩
    cases hs : survivorEntry cfg d with
    | none => rw [hs] at hf; simp at hf
    | some te =>
      rw [hs] at hf
      by_cases ht : te.1 = name
      · simp only [if_pos ht, Option.some.injEq] at hf
        exact ⟨d, hd, by rw [hs, ← ht, ← hf]⟩
      · simp [ht] at hf
  · rintro ⟨d, hd, hs⟩
    exact ⟨d, hd, by rw [hs]; simp⟩

theorem min_of_cands_decomp (cands c₁ c₂ : List OrgEntry) (e : OrgEntry)
    (hdec : cands = c₁ ++ e :: c₂) (h₁ : ∀ x ∈ c₁, e.latency < x.latency)
    (h₂ : ∀ x ∈ c₂, e.latency ≤ x.latency) :
    ∀ x ∈ cands, e.latency ≤ x.latency := by
  intro x hx
  rw [hdec] at hx
  rcases List.mem_append.mp hx with hx | hx
  · exact le_of_lt (h₁ x hx)
  · rcases List.mem_cons.mp hx with hx | hx
    · rw [hx]
    · exact h₂ x hx

theorem mergeFoldOpt_some_ne_none (c : List OrgEntry) (a : OrgEntry) :
    mergeFoldOpt (some a) c ≠ none := by
  induction c generalizing a with
  | nil => simp [mergeFoldOpt]
  | cons x c ih =>
    by_cases hx : x.latency < a.latency
    · simpa [mergeFoldOpt, hx] using ih x
    · simpa [mergeFoldOpt, hx] using ih a

theorem lookupK_organize_eq_none_iff (cfg : Config) (l : List (Str × ChannelData))
    (name : Str) :
    lookupK name (organize_channels l cfg) = none ↔ candsFor cfg l name = [] := by
  rw [lookupK_organize]
  cases hc : candsFor cfg l name with
  | nil => simp [mergeFoldOpt]
  | cons a c =>
    rw [mergeFoldOpt_none_cons]
    simp only [List.cons_ne_nil, iff_false]
    exact mergeFoldOpt_some_ne_none c a

/-- C2 amended: the kept channel for a display title is characterized by the
strict "replace only if strictly faster" rule — it is the first arriving
survivor that strictly beats everything before it and is never strictly
beaten afterwards (so on a latency tie the earlier-processed channel wins) —
and the kept mapping is order-independent exactly under the proviso that the
surviving first-latencies of the colliding title are pairwise distinct. -/
theorem c2_amended_theorem (cfg : Config) (l l' : List (Str × ChannelData)) (name : Str) :
    (∀ e, lookupK name (organize_channels l cfg) = some e →
      ∃ c₁ c₂, candsFor cfg l name = c₁ ++ e :: c₂
        ∧ (∀ x ∈ c₁, e.latency < x.latency) ∧ ∀ x ∈ c₂, e.latency ≤ x.latency)
    ∧ (l.Perm l' → ((candsFor cfg l name).map OrgEntry.latency).Nodup →
        lookupK name (organize_channels l cfg) = lookupK name (organize_channels l' cfg)) := by
  have hchar : ∀ (m : List (Str × ChannelData)) (e : OrgEntry),
      lookupK name (organize_channels m cfg) = some e →
      ∃ c₁ c₂, candsFor cfg m name = c₁ ++ e :: c₂
        ∧ (∀ x ∈ c₁, e.latency < x.latency) ∧ ∀ x ∈ c₂, e.latency ≤ x.latency := by
    intro m e he
    rw [lookupK_organize] at he
    cases hc : candsFor cfg m name with
    | nil => rw [hc] at he; simp [mergeFoldOpt] at he
    | cons a c =>
      rw [hc, mergeFoldOpt_none_cons] at he
      obtain ⟨c₁, c₂, hdec, h₁, h₂⟩ := mergeFoldOpt_some_decomp c a e he
      exact ⟨c₁, c₂, hdec, h₁, h₂⟩
  refine ⟨hchar l, ?_⟩
  intro hperm hnodup
  have hcperm : (candsFor cfg l name).Perm (candsFor cfg l' name) := hperm.filterMap _
  cases hl : lookupK name (organize_channels l cfg) with
  | none =>
    have hnil : candsFor cfg l name = [] :=
      (lookupK_organize_eq_none_iff cfg l name).mp hl
    have hnil' : candsFor cfg l' name = [] := List.Perm.eq_nil (hnil ▸ hcperm).symm
    rw [(lookupK_organize_eq_none_iff cfg l' name).mpr hnil']
  | some e =>
    obtain ⟨c₁, c₂, hdec, h₁, h₂⟩ := hchar l e hl
    have hemem : e ∈ candsFor cfg l name := by
      rw [hdec]; exact List.mem_append.mpr (Or.inr (List.mem_cons_self _ _))
    cases hl' : lookupK name (organize_channels l' cfg) with
    | none =>
      have hnil' : candsFor cfg l' name = [] :=
        (lookupK_organize_eq_none_iff cfg l' name).mp hl'
      have : candsFor cfg l name = [] := List.Perm.eq_nil (hnil' ▸ hcperm)
      rw [this] at hemem
      exact absurd hemem (List.not_mem_nil e)
    | some e' =>
      obtain ⟨c₁', c₂', hdec', h₁', h₂'⟩ := hchar l' e' hl'
      have hemem' : e' ∈ candsFor cfg l' name := by
        rw [hdec']; exact List.mem_append.mpr (Or.inr (List.mem_cons_self _ _))
      have hmin : ∀ x ∈ candsFor cfg l name, e.latency ≤ x.latency :=
        min_of_cands_decomp _ _ _ _ hdec h₁ h₂
      have hmin' : ∀ x ∈ candsFor cfg l' name, e'.latency ≤ x.latency :=
        min_of_cands_decomp _ _ _ _ hdec' h₁' h₂'
      have hle : e.latency ≤ e'.latency := hmin e' (hcperm.mem_iff.mpr hemem')
      have hge : e'.latency ≤ e.latency := hmin' e (hcperm.mem_iff.mp hemem)
      have heq : e = e' :=
        List.inj_on_of_nodup_map hnodup hemem (hcperm.mem_iff.mpr hemem')
          (le_antisymm hle hge)
      rw [heq]

/-- C2 counterexample: two different ChannelKeys (`id1`, `id2`) normalize to
the same display title `NewsOne` with EQUAL fastest latencies; processing
them in the two orders keeps different channels (different source lists), so
the set of kept channels is NOT independent of processing order — the strict
comparison keeps whichever key was processed first on a tie. -/
theorem c2_counterexample :
    lookupK (str "NewsOne") (organize_channels [tieA, tieB] cfg0) =
      some ⟨[(str "title", str "NewsOne"), (str "group-title", str "其他频道")],
        [str "http://a/1"], 5⟩
    ∧ lookupK (str "NewsOne") (organize_channels [tieB, tieA] cfg0) =
      some ⟨[(str "title", str "NewsOne"), (str "group-title", str "其他频道")],
        [str "http://b/1"], 5⟩
    ∧ lookupK (str "NewsOne") (organize_channels [tieA, tieB] cfg0) ≠
      lookupK (str "NewsOne") (organize_channels [tieB, tieA] cfg0) := by
  decide

/-- Witness for `c2_amended_theorem`: with distinct latencies (5 and 7) the
kept channel is order-independent. -/
theorem c2_witness :
    lookupK (str "NewsOne") (organize_channels [tieA, slowB] cfg0) =
      lookupK (str "NewsOne") (organize_channels [slowB, tieA] cfg0) :=
  (c2_amended_theorem cfg0 [tieA, slowB] [slowB, tieA] (str "NewsOne")).2
    (List.Perm.swap _ _ _) (by decide)

/-! ## Stable sort lemmas -/

theorem insertSorted_perm (le : α → α → Bool) (x : α) (l : List α) :
    (insertSorted le x l).Perm (x :: l) := by
  induction l with
  | nil => simp [insertSorted]
  | cons y ys ih =>
    by_cases h : le x y
    · simp [insertSorted, h]
    · simp only [insertSorted, h, Bool.false_eq_true, if_false]
      exact (ih.cons y).trans (List.Perm.swap x y ys)

theorem pySorted_perm (le : α → α → Bool) (l : List α) : (pySorted le l).Perm l := by
  induction l with
  | nil => simp [pySorted]
  | cons x xs ih =>
    exact (insertSorted_perm le x (pySorted le xs)).trans (ih.cons x)

theorem insertSorted_pairwise_key {β : Type _} [LinearOrder β] (k : α → β) (x : α)
    (l : List α) (hl : l.Pairwise (fun a b => k a ≤ k b)) :
    (insertSorted (fun a b => decide (k a ≤ k b)) x l).Pairwise (fun a b => k a ≤ k b) := by
  induction l with
  | nil => simp [insertSorted]
  | cons y ys ih =>
    rcases List.pairwise_cons.mp hl with ⟨hy, hys⟩
    by_cases h : k x ≤ k y
    · simp only [insertSorted, decide_eq_true_eq, h, if_pos]
      refine List.pairwise_cons.mpr ⟨?_, hl⟩
      intro z hz
      rcases List.mem_cons.mp hz with hz | hz
      · rw [hz]; exact h
      · exact le_trans h (hy z hz)
    · have hyx : k y ≤ k x := le_of_not_le h
      simp only [insertSorted, decide_eq_true_eq, h, if_false]
      refine List.pairwise_cons.mpr ⟨?_, ih hys⟩
      intro z hz
      have hz' : z ∈ x :: ys := (insertSorted_perm _ x ys).mem_iff.mp hz
      rcases List.mem_cons.mp hz' with hz' | hz'
      · rw [hz']; exact hyx
      · exact hy z hz'

theorem pySorted_pairwise_key {β : Type _} [LinearOrder β] (k : α → β) (l : List α) :
    (pySorted (fun a b => decide (k a ≤ k b)) l).Pairwise (fun a b => k a ≤ k b) := by
  induction l with
  | nil => simp [pySorted]
  | cons x xs ih => exact insertSorted_pairwise_key k x _ ih

theorem insertSorted_decomp (le : α → α → Bool) (x : α) (l : List α) :
    ∃ b a, insertSorted le x l = b ++ x :: a ∧ l = b ++ a ∧ ∀ y ∈ b, le x y = false := by
  induction l with
  | nil => exact ⟨[], [], rfl, rfl, by simp⟩
  | cons y ys ih =>
    by_cases h : le x y
    · exact ⟨[], y :: ys, by simp [insertSorted, h], rfl, by simp⟩
    · obtain ⟨b, a, h1, h2, h3⟩ := ih
      refine ⟨y :: b, a, ?_, by rw [List.cons_append, ← h2], ?_⟩
      · simp only [insertSorted, h, Bool.false_eq_true, if_false, List.cons_append, h1]
      · intro z hz
        rcases List.mem_cons.mp hz with hz | hz
        · rw [hz]; simpa using h
        · exact h3 z hz

theorem filter_insertSorted_key {β : Type _} [LinearOrder β] [DecidableEq β]
    (k : α → β) (c : β) (x : α) (l : List α) :
    (insertSorted (fun a b => decide (k a ≤ k b)) x l).filter (fun z => decide (k z = c)) =
      if k x = c then x :: l.filter (fun z => decide (k z = c))
      else l.filter (fun z => decide (k z = c)) := by
  obtain ⟨b, a, h1, h2, h3⟩ := insertSorted_decomp (fun a b => decide (k a ≤ k b)) x l
  rw [h1, h2, List.filter_append, List.filter_append, List.filter_cons]
  by_cases hx : k x = c
  · have hb : b.filter (fun z => decide (k z = c)) = [] := by
      rw [List.filter_eq_nil_iff]
      intro z hz
      have := h3 z hz
      simp only [decide_eq_false_iff_not] at this
      have hlt : k z < k x := lt_of_not_le this
      simp only [decide_eq_true_eq]
      intro hzc
      rw [hzc, hx] at hlt
      exact absurd hlt (lt_irrefl c)
    simp [hx, hb]
  · simp [hx]

theorem filter_pySorted_key {β : Type _} [LinearOrder β] [DecidableEq β]
    (k : α → β) (c : β) (l : List α) :
    (pySorted (fun a b => decide (k a ≤ k b)) l).filter (fun z => decide (k z = c)) =
      l.filter (fun z => decide (k z = c)) := by
  induction l with
  | nil => rfl
  | cons x xs ih =>
    show (insertSorted _ x (pySorted _ xs)).filter _ = _
    rw [filter_insertSorted_key, List.filter_cons]
    by_cases hx : k x = c
    · simp [hx, ih]
    · simp [hx, ih]

/-! ## C1 / C10 theorems -/

theorem lookupK_organize_mem (cfg : Config) (l : List (Str × ChannelData))
    (name : Str) (e : OrgEntry)
    (h : lookupK name (organize_channels l cfg) = some e) :
    e ∈ candsFor cfg l name := by
  rw [lookupK_organize] at h
  cases hc : candsFor cfg l name with
  | nil => rw [hc] at h; simp [mergeFoldOpt] at h
  | cons a c =>
    rw [hc, mergeFoldOpt_none_cons] at h
    obtain ⟨c₁, c₂, hdec, -, -⟩ := mergeFoldOpt_some_decomp c a e h
    rw [hdec]
    exact List.mem_append.mpr (Or.inr (List.mem_cons_self _ _))

theorem survivorEntry_eq_some (cfg : Config) (d : Str × ChannelData) (name : Str)
    (e : OrgEntry) (h : survivorEntry cfg d = some (name, e)) :
    getDflt d.2.info (str "title") [] = name ∧ name ≠ []
    ∧ validSourcesOf cfg (categorize d.2.info cfg) d.2.sources ≠ []
    ∧ e = ⟨categorize d.2.info cfg,
        ((pySorted prioLe (validSourcesOf cfg (categorize d.2.info cfg) d.2.sources)).take 2).map
          (·.1),
        (((pySorted prioLe
            (validSourcesOf cfg (categorize d.2.info cfg) d.2.sources)).take 2).headD
          ([], 0)).2⟩ := by
  simp only [survivorEntry] at h
  by_cases ht : getDflt d.2.info (str "title") [] = []
  · rw [if_pos ht] at h
    exact absurd h (by simp)
  · rw [if_neg ht] at h
    by_cases hv : validSourcesOf cfg (categorize d.2.info cfg) d.2.sources = []
    · rw [if_pos hv] at h
      exact absurd h (by simp)
    · rw [if_neg hv] at h
      simp only [Option.some.injEq, Prod.mk.injEq] at h
      exact ⟨h.1, h.1 ▸ ht, hv, h.2.symm⟩

/-- C1 amended: every surviving channel's `ordered_endpoints` are the first
`min(2, n)` of its valid, non-excluded candidate URLs sorted ascending by
`source_priority` — the CDN-discounted priority (latency halved when the URL
contains a CDN keyword), NOT the raw latency the claim states — with
`1 ≤ length ≤ 2`, and every kept URL comes from a valid, non-excluded probe
of the record. -/
theorem c1_amended_theorem (cfg : Config) (l : List (Str × ChannelData))
    (name : Str) (e : OrgEntry)
    (h : lookupK name (organize_channels l cfg) = some e) :
    (1 ≤ e.sources.length ∧ e.sources.length ≤ 2)
    ∧ ∃ d ∈ l, survivorEntry cfg d = some (name, e)
        ∧ e.sources =
            ((pySorted prioLe
              (validSourcesOf cfg (categorize d.2.info cfg) d.2.sources)).take 2).map (·.1)
        ∧ ((pySorted prioLe
            (validSourcesOf cfg (categorize d.2.info cfg) d.2.sources)).take 2).Pairwise
            (fun a b => source_priority a ≤ source_priority b)
        ∧ ∀ u ∈ e.sources, ∃ s ∈ d.2.sources, s.url = u ∧ s.valid = true
            ∧ should_exclude_channel (categorize d.2.info cfg) s.url cfg = false := by
  obtain ⟨d, hd, hs⟩ := (mem_candsFor cfg l name e).mp (lookupK_organize_mem cfg l name e h)
  obtain ⟨hname, hne, hvs, he⟩ := survivorEntry_eq_some cfg d name e hs
  set vs := validSourcesOf cfg (categorize d.2.info cfg) d.2.sources with hvsdef
  have hsrc : e.sources = ((pySorted prioLe vs).take 2).map (·.1) := by rw [he]
  have hsortlen : (pySorted prioLe vs).length = vs.length :=
    (pySorted_perm prioLe vs).length_eq
  have hlen : e.sources.length = min 2 vs.length := by
    rw [hsrc, List.length_map, List.length_take, hsortlen]
  have hvpos : 1 ≤ vs.length := by
    cases hvv : vs with
    | nil => exact absurd hvv hvs
    | cons a b => simp [hvv]
  have hpw : (pySorted prioLe vs).Pairwise
      (fun a b => source_priority a ≤ source_priority b) := by
    have : prioLe = fun a b => decide (source_priority a ≤ source_priority b) := rfl
    rw [this]
    exact pySorted_pairwise_key source_priority vs
  refine ⟨⟨by rw [hlen]; exact le_min (by norm_num) hvpos, by rw [hlen]; exact min_le_left _ _⟩,
    d, hd, hs, hsrc, hpw.sublist (List.take_sublist 2 _), ?_⟩
  intro u hu
  rw [hsrc] at hu
  obtain ⟨p, hp, hpu⟩ := List.mem_map.mp hu
  have hp' : p ∈ pySorted prioLe vs := (List.take_sublist 2 _).mem hp
  have hpv : p ∈ vs := (pySorted_perm prioLe vs).mem_iff.mp hp'
  rw [hvsdef] at hpv
  simp only [validSourcesOf, List.mem_filterMap] at hpv
  obtain ⟨s, hsmem, hcond⟩ := hpv
  by_cases hc : (s.valid && !should_exclude_channel (categorize d.2.info cfg) s.url cfg) = true
  · rw [if_pos hc] at hcond
    rw [Bool.and_eq_true] at hc
    obtain ⟨hvld, hexc⟩ := hc
    have hurl : s.url = u := by
      have : (s.url, s.latency) = p := Option.some.inj hcond
      rw [← hpu, ← this]
    refine ⟨s, hsmem, hurl, hvld, ?_⟩
    simpa using hexc
  · rw [if_neg hc] at hcond
    exact absurd hcond (by simp)

/-- C1 counterexample: a CDN-keyword URL with raw latency 100 sorts BEFORE a
plain URL with raw latency 60 (its discounted priority is 50), so the kept
`ordered_endpoints` are not "sorted ascending by latency" as the claim
states: the code keeps `[cdn(100ms), plain(60ms)]` where the claim demands
`[plain(60ms), cdn(100ms)]`. -/
theorem c1_counterexample :
    lookupK (str "News1") (organize_channels cdnData cfg0) = some newsEntry
    ∧ claimLatencyRankedTake
        (validSourcesOf cfg0 (categorize [(str "title", str "News1")] cfg0)
          [⟨str "http://cdn.example/a", true, 100⟩, ⟨str "http://plain.example/b", true, 60⟩]) =
      [str "http://plain.example/b", str "http://cdn.example/a"]
    ∧ newsEntry.sources ≠
        [str "http://plain.example/b", str "http://cdn.example/a"] := by
  decide

/-- Witness for `c1_amended_theorem` at the `cdnData` input. -/
theorem c1_witness :
    (1 ≤ newsEntry.sources.length ∧ newsEntry.sources.length ≤ 2)
    ∧ ∃ d ∈ cdnData, survivorEntry cfg0 d = some (str "News1", newsEntry)
        ∧ newsEntry.sources =
            ((pySorted prioLe
              (validSourcesOf cfg0 (categorize d.2.info cfg0) d.2.sources)).take 2).map (·.1)
        ∧ ((pySorted prioLe
            (validSourcesOf cfg0 (categorize d.2.info cfg0) d.2.sources)).take 2).Pairwise
            (fun a b => source_priority a ≤ source_priority b)
        ∧ ∀ u ∈ newsEntry.sources, ∃ s ∈ d.2.sources, s.url = u ∧ s.valid = true
            ∧ should_exclude_channel (categorize d.2.info cfg0) s.url cfg0 = false :=
  c1_amended_theorem cfg0 cdnData (str "News1") newsEntry (by decide)

theorem organize_filter_titled (cfg : Config) (l : List (Str × ChannelData)) :
    organize_channels l cfg =
      organize_channels
        (l.filter fun d => !(getDflt d.2.info (str "title") []).isEmpty) cfg := by
  unfold organize_channels
  suffices h : ∀ (m : List (Str × ChannelData)) acc,
      m.foldl (organizeStep cfg) acc =
        (m.filter fun d => !(getDflt d.2.info (str "title") []).isEmpty).foldl
          (organizeStep cfg) acc from h l []
  intro m
  induction m with
  | nil => intro acc; rfl
  | cons d rest ih =>
    intro acc
    by_cases ht : getDflt d.2.info (str "title") [] = []
    · have hs : survivorEntry cfg d = none := by simp [survivorEntry, ht]
      have hstep : organizeStep cfg acc d = acc := by simp [organizeStep, hs]
      have hfilter :
          ((d :: rest).filter fun x => !(getDflt x.2.info (str "title") []).isEmpty) =
            rest.filter fun x => !(getDflt x.2.info (str "title") []).isEmpty := by
        simp [List.filter_cons, ht]
      rw [List.foldl_cons, hstep, hfilter]
      exact ih acc
    · have hfilter :
          ((d :: rest).filter fun x => !(getDflt x.2.info (str "title") []).isEmpty) =
            d :: rest.filter fun x => !(getDflt x.2.info (str "title") []).isEmpty := by
        simp [List.filter_cons, List.isEmpty_iff, ht]
      rw [List.foldl_cons, hfilter, List.foldl_cons]
      exact ih (organizeStep cfg acc d)

/-- C10 (confirmed): every channel kept by the Selector has a non-empty
display title (the output key IS the record's title), and records without a
truthy title contribute nothing to the output — filtering them away first
yields the identical result, even if they have valid, non-excluded URLs. -/
theorem c10_theorem (cfg : Config) (l : List (Str × ChannelData)) (name : Str)
    (e : OrgEntry) (h : lookupK name (organize_channels l cfg) = some e) :
    name ≠ [] ∧ (∃ d ∈ l, getDflt d.2.info (str "title") [] = name)
    ∧ organize_channels l cfg =
        organize_channels
          (l.filter fun d => !(getDflt d.2.info (str "title") []).isEmpty) cfg := by
  obtain ⟨d, hd, hs⟩ := (mem_candsFor cfg l name e).mp (lookupK_organize_mem cfg l name e h)
  obtain ⟨hname, hne, -, -⟩ := survivorEntry_eq_some cfg d name e hs
  exact ⟨hne, ⟨d, hd, hname⟩, organize_filter_titled cfg l⟩

/-- Witness for `c10_theorem` at a concrete input. -/
theorem c10_witness :
    (str "NewsOne") ≠ ([] : Str)
    ∧ (∃ d ∈ [tieA], getDflt d.2.info (str "title") [] = str "NewsOne")
    ∧ organize_channels [tieA] cfg0 =
        organize_channels
          ([tieA].filter fun d => !(getDflt d.2.info (str "title") []).isEmpty) cfg0 :=
  c10_theorem cfg0 [tieA] (str "NewsOne")
    ⟨[(str "title", str "NewsOne"), (str "group-title", str "其他频道")],
     [str "http://a/1"], 5⟩ (by decide)

/-! ## C6 / C7: parser loop lemmas -/

theorem findUrl_length (rest : List Str) (url : Str) (rest' : List Str)
    (h : findUrl rest = some (url, rest')) : rest'.length < rest.length := by
  induction rest generalizing url rest' with
  | nil => simp [findUrl] at h
  | cons l tl ih =>
    simp only [findUrl] at h
    by_cases h1 : pyStrip l = []
    · rw [if_pos h1] at h
      exact lt_trans (ih url rest' h) (by simp)
    · rw [if_neg h1] at h
      by_cases h2 : isPre (str "#") (pyStrip l) = true
      · rw [if_pos h2] at h
        exact lt_trans (ih url rest' h) (by simp)
      · rw [if_neg h2] at h
        simp only [Option.some.injEq, Prod.mk.injEq] at h
        rw [← h.2]
        simp

theorem parseLoopF_nil (f : Nat) : parseLoopF f [] = [] := by
  cases f <;> rfl

theorem parseLoopF_skip (f : Nat) (l : Str) (rest : List Str)
    (h : isPre (str "#EXTINF") (pyStrip l) = false) :
    parseLoopF (f + 1) (l :: rest) = parseLoopF f rest := by
  simp [parseLoopF, h]

theorem parseLoopF_noid (f : Nat) (l : Str) (rest : List Str)
    (hext : isPre (str "#EXTINF") (pyStrip l) = true)
    (hid : channelIdOf (parse_extinf (pyStrip l)) = none) :
    parseLoopF (f + 1) (l :: rest) = parseLoopF f rest := by
  simp [parseLoopF, hext, hid]

theorem parseLoopF_nourl (f : Nat) (l : Str) (rest : List Str) (cid : Str)
    (hext : isPre (str "#EXTINF") (pyStrip l) = true)
    (hid : channelIdOf (parse_extinf (pyStrip l)) = some cid)
    (hfind : findUrl rest = none) :
    parseLoopF (f + 1) (l :: rest) = parseLoopF f rest := by
  simp [parseLoopF, hext, hid, hfind]

theorem parseLoopF_url (f : Nat) (l : Str) (rest : List Str) (cid url : Str)
    (rest' : List Str)
    (hext : isPre (str "#EXTINF") (pyStrip l) = true)
    (hid : channelIdOf (parse_extinf (pyStrip l)) = some cid)
    (hfind : findUrl rest = some (url, rest')) :
    parseLoopF (f + 1) (l :: rest) =
      (cid, parse_extinf (pyStrip l), url) :: parseLoopF f rest' := by
  simp [parseLoopF, hext, hid, hfind]

theorem parseLoopF_fuel_eq (f₁ : Nat) : ∀ (f₂ : Nat) (l : List Str),
    l.length ≤ f₁ → l.length ≤ f₂ → parseLoopF f₁ l = parseLoopF f₂ l := by
  induction f₁ with
  | zero =>
    intro f₂ l h₁ _
    rw [List.length_eq_zero.mp (Nat.le_zero.mp h₁)]
    rw [parseLoopF_nil, parseLoopF_nil]
  | succ f ih =>
    intro f₂ l h₁ h₂
    cases l with
    | nil => rw [parseLoopF_nil, parseLoopF_nil]
    | cons a rest =>
      cases f₂ with
      | zero => simp at h₂
      | succ g =>
        simp only [List.length_cons, Nat.add_le_add_iff_right] at h₁ h₂
        by_cases hext : isPre (str "#EXTINF") (pyStrip a) = true
        · cases hid : channelIdOf (parse_extinf (pyStrip a)) with
          | none =>
            rw [parseLoopF_noid f a rest hext hid, parseLoopF_noid g a rest hext hid]
            exact ih g rest h₁ h₂
          | some cid =>
            cases hfind : findUrl rest with
            | none =>
              rw [parseLoopF_nourl f a rest cid hext hid hfind,
                parseLoopF_nourl g a rest cid hext hid hfind]
              exact ih g rest h₁ h₂
            | some ur =>
              obtain ⟨url, rest'⟩ := ur
              have hlt := findUrl_length rest url rest' hfind
              rw [parseLoopF_url f a rest cid url rest' hext hid hfind,
                parseLoopF_url g a rest cid url rest' hext hid hfind,
                ih g rest' (le_trans (le_of_lt hlt) h₁) (le_trans (le_of_lt hlt) h₂)]
        · rw [parseLoopF_skip f a rest (Bool.not_eq_true _ ▸ hext),
            parseLoopF_skip g a rest (Bool.not_eq_true _ ▸ hext)]
          exact ih g rest h₁ h₂

theorem parseLoop_skip (l : Str) (rest : List Str)
    (h : isPre (str "#EXTINF") (pyStrip l) = false) :
    parseLoop (l :: rest) = parseLoop rest :=
  parseLoopF_skip rest.length l rest h

theorem parseLoop_noid (l : Str) (rest : List Str)
    (hext : isPre (str "#EXTINF") (pyStrip l) = true)
    (hid : channelIdOf (parse_extinf (pyStrip l)) = none) :
    parseLoop (l :: rest) = parseLoop rest :=
  parseLoopF_noid rest.length l rest hext hid

theorem parseLoop_nourl (l : Str) (rest : List Str) (cid : Str)
    (hext : isPre (str "#EXTINF") (pyStrip l) = true)
    (hid : channelIdOf (parse_extinf (pyStrip l)) = some cid)
    (hfind : findUrl rest = none) :
    parseLoop (l :: rest) = parseLoop rest :=
  parseLoopF_nourl rest.length l rest cid hext hid hfind

theorem parseLoop_url (l : Str) (rest : List Str) (cid url : Str) (rest' : List Str)
    (hext : isPre (str "#EXTINF") (pyStrip l) = true)
    (hid : channelIdOf (parse_extinf (pyStrip l)) = some cid)
    (hfind : findUrl rest = some (url, rest')) :
    parseLoop (l :: rest) = (cid, parse_extinf (pyStrip l), url) :: parseLoop rest' := by
  rw [parseLoop, List.length_cons,
    parseLoopF_url rest.length l rest cid url rest' hext hid hfind]
  rw [parseLoopF_fuel_eq rest.length rest'.length rest'
    (le_of_lt (findUrl_length rest url rest' hfind)) (le_refl _)]
  rfl

theorem findUrl_none_tail (l : Str) (rest : List Str)
    (h : findUrl (l :: rest) = none) : findUrl rest = none := by
  simp only [findUrl] at h
  by_cases h1 : pyStrip l = []
  · rwa [if_pos h1] at h
  · rw [if_neg h1] at h
    by_cases h2 : isPre (str "#") (pyStrip l) = true
    · rwa [if_pos h2] at h
    · rw [if_neg h2] at h
      exact absurd h (by simp)

theorem parseLoop_of_findUrl_none (lines : List Str) (h : findUrl lines = none) :
    parseLoop lines = [] := by
  induction lines with
  | nil => rfl
  | cons l rest ih =>
    have htail := findUrl_none_tail l rest h
    by_cases hext : isPre (str "#EXTINF") (pyStrip l) = true
    · cases hid : channelIdOf (parse_extinf (pyStrip l)) with
      | none => rw [parseLoop_noid l rest hext hid]; exact ih htail
      | some cid => rw [parseLoop_nourl l rest cid hext hid htail]; exact ih htail
    · rw [parseLoop_skip l rest (Bool.not_eq_true _ ▸ hext)]
      exact ih htail

/-- C6 amended: a metadata line with NO URL line anywhere in the remaining
input yields no record at all (and neither does anything after it, since
nothing after it can be a URL line); but when any later non-comment,
non-blank line exists — including the URL belonging to a LATER metadata
block, since the scan skips every `#`-prefixed line — the metadata line
consumes it as its own URL and parsing resumes after that line, dropping the
intervening metadata blocks. -/
theorem c6_amended_theorem (meta : Str) (post : List Str)
    (hext : isPre (str "#EXTINF") (pyStrip meta) = true) :
    (findUrl post = none → parseLoop (meta :: post) = [])
    ∧ ∀ cid url rest', channelIdOf (parse_extinf (pyStrip meta)) = some cid →
        findUrl post = some (url, rest') →
        parseLoop (meta :: post) =
          (cid, parse_extinf (pyStrip meta), url) :: parseLoop rest' := by
  constructor
  · intro hnone
    cases hid : channelIdOf (parse_extinf (pyStrip meta)) with
    | none =>
      rw [parseLoop_noid meta post hext hid]
      exact parseLoop_of_findUrl_none post hnone
    | some cid =>
      rw [parseLoop_nourl meta post cid hext hid hnone]
      exact parseLoop_of_findUrl_none post hnone
  · intro cid url rest' hid hfind
    exact parseLoop_url meta post cid url rest' hext hid hfind

/-- C6 counterexample: in
`#EXTM3U / #EXTINF:-1,A / #EXTINF:-1,B / http://u` the first metadata block
(`A`) has no URL line of its own, yet it is NOT dropped silently: the URL
scan skips the `#EXTINF:-1,B` line and steals `http://u`, producing a record
for `A` and losing `B` entirely — contradicting "it does not consume the URL
of a later metadata block". -/
theorem c6_counterexample :
    parse_m3u_content (str "#EXTM3U\n#EXTINF:-1,A\n#EXTINF:-1,B\nhttp://u") =
      [(str "A", [(str "title", str "A")], [str "http://u"])]
    ∧ lookupK (str "B")
        (parse_m3u_content (str "#EXTM3U\n#EXTINF:-1,A\n#EXTINF:-1,B\nhttp://u")) =
        none := by
  decide

/-- Witness for `c6_amended_theorem` at the counterexample's lines. -/
theorem c6_witness :
    (findUrl [str "#EXTINF:-1,B", str "http://u"] = none →
      parseLoop [str "#EXTINF:-1,A", str "#EXTINF:-1,B", str "http://u"] = [])
    ∧ ∀ cid url rest',
        channelIdOf (parse_extinf (pyStrip (str "#EXTINF:-1,A"))) = some cid →
        findUrl [str "#EXTINF:-1,B", str "http://u"] = some (url, rest') →
        parseLoop [str "#EXTINF:-1,A", str "#EXTINF:-1,B", str "http://u"] =
          (cid, parse_extinf (pyStrip (str "#EXTINF:-1,A")), url) :: parseLoop rest' :=
  c6_amended_theorem (str "#EXTINF:-1,A") [str "#EXTINF:-1,B", str "http://u"] (by decide)

/-- C7 amended: of several consecutive URL lines under one metadata block,
only the FIRST is attached to the record; the following URL line is skipped
by the resumed loop (it is neither kept for this record nor given to any
other record). -/
theorem c7_amended_theorem (meta u1 u2 : Str) (rest : List Str) (cid : Str)
    (hext : isPre (str "#EXTINF") (pyStrip meta) = true)
    (hid : channelIdOf (parse_extinf (pyStrip meta)) = some cid)
    (hu1 : pyStrip u1 ≠ []) (hu1p : isPre (str "#") (pyStrip u1) = false)
    (hu2 : isPre (str "#EXTINF") (pyStrip u2) = false) :
    parseLoop (meta :: u1 :: u2 :: rest) =
      (cid, parse_extinf (pyStrip meta), pyStrip u1) :: parseLoop rest := by
  have hfind : findUrl (u1 :: u2 :: rest) = some (pyStrip u1, u2 :: rest) := by
    simp [findUrl, hu1, hu1p]
  rw [parseLoop_url meta (u1 :: u2 :: rest) cid (pyStrip u1) (u2 :: rest) hext hid hfind,
    parseLoop_skip u2 rest hu2]

/-- C7 counterexample: two stacked URL lines under one metadata block — the
record keeps only `http://u1`; `http://u2` appears in no record at all,
contradicting "all belong to the same record". -/
theorem c7_counterexample :
    parse_m3u_content (str "#EXTM3U\n#EXTINF:-1,A\nhttp://u1\nhttp://u2") =
      [(str "A", [(str "title", str "A")], [str "http://u1"])]
    ∧ (str "http://u2") ∉
        (parse_m3u_content (str "#EXTM3U\n#EXTINF:-1,A\nhttp://u1\nhttp://u2")).flatMap
          (fun r => r.2.2) := by
  decide

/-- Witness for `c7_amended_theorem` at the counterexample's lines. -/
theorem c7_witness :
    parseLoop [str "#EXTINF:-1,A", str "http://u1", str "http://u2"] =
      (str "A", parse_extinf (pyStrip (str "#EXTINF:-1,A")),
        pyStrip (str "http://u1")) :: parseLoop [] :=
  c7_amended_theorem (str "#EXTINF:-1,A") (str "http://u1") (str "http://u2") [] (str "A")
    (by decide) (by decide) (by decide) (by decide) (by decide)

/-! ## C8: categorizer/sorter lemmas -/

theorem lookupK_eq_none_iff (k : Str) (m : List (Str × α)) :
    lookupK k m = none ↔ k ∉ m.map Prod.fst := by
  induction m with
  | nil => simp [lookupK]
  | cons hd tl ih =>
    obtain ⟨k', v⟩ := hd
    by_cases hk : k' = k
    · subst hk
      rw [List.map_cons, List.mem_cons]
      show (if k' = k' then some v else lookupK k' tl) = none ↔ _
      rw [if_pos rfl]
      constructor
      · intro h1
        exact absurd h1 (Option.some_ne_none v)
      · intro h1
        exact absurd (Or.inl rfl) h1
    · rw [List.map_cons, List.mem_cons]
      show (if k' = k then some v else lookupK k tl) = none ↔ _
      rw [if_neg hk, ih]
      constructor
      · intro hnot
        rintro (h1 | h1)
        · exact hk h1.symm
        · exact hnot h1
      · intro hnot h1
        exact hnot (Or.inr h1)

theorem mem_keys_setK (m : List (Str × α)) (k a : Str) (v : α) :
    a ∈ (setK m k v).map Prod.fst ↔ a ∈ m.map Prod.fst ∨ a = k := by
  induction m with
  | nil => simp [setK]
  | cons hd tl ih =>
    obtain ⟨k', v'⟩ := hd
    show a ∈ ((if k' = k then (k, v) :: tl else (k', v') :: setK tl k v).map Prod.fst) ↔ _
    by_cases h : k' = k
    · rw [if_pos h]
      subst h
      simp only [List.map_cons, List.mem_cons]
      tauto
    · rw [if_neg h]
      simp only [List.map_cons, List.mem_cons, ih]
      tauto

theorem nodup_keys_setK (m : List (Str × α)) (k : Str) (v : α)
    (h : (m.map Prod.fst).Nodup) : ((setK m k v).map Prod.fst).Nodup := by
  induction m with
  | nil => simp [setK]
  | cons hd tl ih =>
    obtain ⟨k', v'⟩ := hd
    simp only [List.map_cons, List.nodup_cons] at h
    show (((if k' = k then (k, v) :: tl else (k', v') :: setK tl k v)).map Prod.fst).Nodup
    by_cases hk : k' = k
    · rw [if_pos hk]
      subst hk
      simp only [List.map_cons, List.nodup_cons]
      exact h
    · rw [if_neg hk]
      simp only [List.map_cons, List.nodup_cons]
      refine ⟨?_, ih h.2⟩
      rw [mem_keys_setK]
      rintro (hmem | hmem)
      · exact h.1 hmem
      · exact hk hmem

theorem removeK_sublist (k : Str) (m : List (Str × α)) : (removeK k m).Sublist m := by
  induction m with
  | nil => simp [removeK]
  | cons hd tl ih =>
    obtain ⟨k', v⟩ := hd
    show (if k' = k then tl else (k', v) :: removeK k tl).Sublist _
    by_cases h : k' = k
    · rw [if_pos h]
      exact List.sublist_cons_self _ _
    · rw [if_neg h]
      exact ih.cons₂ _

theorem lookupK_removeK_ne (k k' : Str) (m : List (Str × α)) (h : k ≠ k') :
    lookupK k (removeK k' m) = lookupK k m := by
  induction m with
  | nil => simp [removeK]
  | cons hd tl ih =>
    obtain ⟨k₀, v⟩ := hd
    show lookupK k (if k₀ = k' then tl else (k₀, v) :: removeK k' tl) =
      (if k₀ = k then some v else lookupK k tl)
    by_cases h₀ : k₀ = k'
    · rw [if_pos h₀]
      have : ¬ k₀ = k := fun hh => h (hh ▸ h₀)
      rw [if_neg this]
    · rw [if_neg h₀]
      show (if k₀ = k then some v else lookupK k (removeK k' tl)) = _
      by_cases h₁ : k₀ = k
      · rw [if_pos h₁, if_pos h₁]
      · rw [if_neg h₁, if_neg h₁, ih]

theorem lookupK_removeK_self (k : Str) (m : List (Str × α))
    (h : (m.map Prod.fst).Nodup) : lookupK k (removeK k m) = none := by
  induction m with
  | nil => simp [removeK, lookupK]
  | cons hd tl ih =>
    obtain ⟨k₀, v⟩ := hd
    simp only [List.map_cons, List.nodup_cons] at h
    show lookupK k (if k₀ = k then tl else (k₀, v) :: removeK k tl) = none
    by_cases h₀ : k₀ = k
    · rw [if_pos h₀]
      rw [lookupK_eq_none_iff]
      exact h₀ ▸ h.1
    · rw [if_neg h₀]
      show (if k₀ = k then some v else lookupK k (removeK k tl)) = none
      rw [if_neg h₀]
      exact ih h.2

theorem lookupK_groupFold (chans : List (Str × OrgEntry))
    (acc : List (Str × List (Str × OrgEntry))) (c : Str) :
    lookupK c (chans.foldl groupStep acc) =
      match lookupK c acc with
      | some l₀ => some (l₀ ++ chans.filter (fun x => decide (catOf x.2 = c)))
      | none =>
        if chans.filter (fun x => decide (catOf x.2 = c)) = [] then none
        else some (chans.filter (fun x => decide (catOf x.2 = c))) := by
  induction chans generalizing acc with
  | nil =>
    cases h : lookupK c acc <;> simp [h]
  | cons p rest ih =>
    have hfold : (p :: rest).foldl groupStep acc = rest.foldl groupStep (groupStep acc p) := rfl
    rw [hfold, ih]
    by_cases hc : catOf p.2 = c
    · have hfil : (p :: rest).filter (fun x => decide (catOf x.2 = c)) =
          p :: rest.filter (fun x => decide (catOf x.2 = c)) := by
        simp [List.filter_cons, hc]
      cases hacc : lookupK c acc with
      | some l₀ =>
        have hstep : lookupK c (groupStep acc p) = some (l₀ ++ [p]) := by
          simp only [groupStep, hc, hacc]
          exact lookupK_setK_self _ _ _
        rw [hstep, hfil]
        simp
      | none =>
        have hstep : lookupK c (groupStep acc p) = some [p] := by
          simp only [groupStep, hc, hacc]
          exact lookupK_setK_self _ _ _
        rw [hstep, hfil]
        simp
    · have hfil : (p :: rest).filter (fun x => decide (catOf x.2 = c)) =
          rest.filter (fun x => decide (catOf x.2 = c)) := by
        simp [List.filter_cons, hc]
      have hstep : lookupK c (groupStep acc p) = lookupK c acc := by
        unfold groupStep
        cases hl : lookupK (catOf p.2) acc <;>
          exact lookupK_setK_ne _ _ _ _ fun hh => hc hh.symm
      rw [hstep, hfil]

theorem lookupK_groupByCategory (chans : List (Str × OrgEntry)) (c : Str) :
    lookupK c (groupByCategory chans) =
      if chans.filter (fun x => decide (catOf x.2 = c)) = [] then none
      else some (chans.filter (fun x => decide (catOf x.2 = c))) := by
  unfold groupByCategory
  rw [lookupK_groupFold]
  rfl

theorem groupByCategory_keys_nodup (chans : List (Str × OrgEntry)) :
    ((groupByCategory chans).map Prod.fst).Nodup := by
  unfold groupByCategory
  suffices h : ∀ (m : List (Str × OrgEntry)) acc, (acc.map Prod.fst).Nodup →
      ((m.foldl groupStep acc).map Prod.fst).Nodup from h chans [] (by simp)
  intro m
  induction m with
  | nil => intro acc h; exact h
  | cons p rest ih =>
    intro acc h
    refine ih (groupStep acc p) ?_
    unfold groupStep
    cases hl : lookupK (catOf p.2) acc <;> exact nodup_keys_setK _ _ _ h

theorem lookupK_map_val (m : List (Str × α)) (h : Str → α → β) (k : Str) :
    lookupK k (m.map fun g => (g.1, h g.1 g.2)) = (lookupK k m).map (h k) := by
  induction m with
  | nil => simp [lookupK]
  | cons hd tl ih =>
    obtain ⟨k', v⟩ := hd
    by_cases hk : k' = k
    · subst hk
      simp [lookupK]
    · simp [lookupK, hk, ih]

theorem sortGroupList_perm (cat : Str) (l : List (Str × OrgEntry)) :
    (sortGroupList cat l).Perm l := by
  unfold sortGroupList
  by_cases h : cat = str "央视频道"
  · rw [if_pos h]; exact pySorted_perm _ _
  · rw [if_neg h]; exact pySorted_perm _ _

theorem sortedGroups_char (chans : List (Str × OrgEntry)) (k : Str)
    (l : List (Str × OrgEntry))
    (h : lookupK k ((groupByCategory chans).map fun g => (g.1, sortGroupList g.1 g.2)) =
      some l) :
    l = sortGroupList k (chans.filter (fun x => decide (catOf x.2 = k)))
    ∧ ∀ x ∈ l, catOf x.2 = k := by
  rw [lookupK_map_val] at h
  cases hg : lookupK k (groupByCategory chans) with
  | none => rw [hg] at h; exact absurd h (by simp)
  | some gl =>
    rw [hg] at h
    simp only [Option.map_some', Option.some.injEq] at h
    rw [lookupK_groupByCategory] at hg
    by_cases hf : chans.filter (fun x => decide (catOf x.2 = k)) = []
    · rw [if_pos hf] at hg; exact absurd hg (by simp)
    · rw [if_neg hf] at hg
      have hgl : gl = chans.filter (fun x => decide (catOf x.2 = k)) :=
        (Option.some.inj hg).symm
      refine ⟨by rw [← h, hgl], ?_⟩
      intro x hx
      rw [← h] at hx
      have hx' : x ∈ gl := (sortGroupList_perm k gl).mem_iff.mp hx
      rw [hgl] at hx'
      have := List.of_mem_filter hx'
      simpa using this

theorem assemble_fold_inv (sg : List (Str × List (Str × OrgEntry))) (c₀ : Str)
    (hsg : ∀ k l, lookupK k sg = some l → ∀ x ∈ l, catOf x.2 = k)
    (cats : List Str) :
    ∀ st : List (Str × OrgEntry) × List (Str × List (Str × OrgEntry)),
      (st.2.map Prod.fst).Nodup →
      (∀ k l, lookupK k st.2 = some l → lookupK k sg = some l) →
      st.1.filter (fun x => decide (catOf x.2 = c₀)) ++ (lookupK c₀ st.2).getD [] =
        (lookupK c₀ sg).getD [] →
      (((cats.foldl assembleStep st).2.map Prod.fst).Nodup
       ∧ (∀ k l, lookupK k (cats.foldl assembleStep st).2 = some l →
           lookupK k sg = some l)
       ∧ (cats.foldl assembleStep st).1.filter (fun x => decide (catOf x.2 = c₀)) ++
           (lookupK c₀ (cats.foldl assembleStep st).2).getD [] =
           (lookupK c₀ sg).getD []) := by
  induction cats with
  | nil => exact fun st h1 h2 h3 => ⟨h1, h2, h3⟩
  | cons cat cats ih =>
    intro st h1 h2 h3
    have hfold : (cat :: cats).foldl assembleStep st = cats.foldl assembleStep
      (assembleStep st cat) := rfl
    rw [hfold]
    cases hl : lookupK cat st.2 with
    | none =>
      have hstep : assembleStep st cat = st := by simp [assembleStep, hl]
      rw [hstep]
      exact ih st h1 h2 h3
    | some l =>
      have hstep : assembleStep st cat = (st.1 ++ l, removeK cat st.2) := by
        simp [assembleStep, hl]
      rw [hstep]
      have hmembers : ∀ x ∈ l, catOf x.2 = cat := hsg cat l (h2 cat l hl)
      refine ih _ ?_ ?_ ?_
      · exact ((removeK_sublist cat st.2).map Prod.fst).nodup h1
      · intro k l' hk
        by_cases hkc : k = cat
        · rw [hkc] at hk
          rw [lookupK_removeK_self cat st.2 h1] at hk
          exact absurd hk (by simp)
        · rw [lookupK_removeK_ne k cat st.2 hkc] at hk
          exact h2 k l' hk
      · show (st.1 ++ l).filter _ ++ (lookupK c₀ (removeK cat st.2)).getD [] = _
        rw [List.filter_append]
        by_cases hc : cat = c₀
        · subst hc
          have hlf : l.filter (fun x => decide (catOf x.2 = cat)) = l := by
            rw [List.filter_eq_self]
            intro a ha
            exact decide_eq_true (hmembers a ha)
          rw [hlf, lookupK_removeK_self cat st.2 h1]
          rw [hl] at h3
          simp only [Option.getD_some] at h3
          simp only [Option.getD_none, List.append_nil, List.append_assoc]
          exact h3
        · have hlf : l.filter (fun x => decide (catOf x.2 = c₀)) = [] := by
            rw [List.filter_eq_nil_iff]
            intro a ha
            simp only [decide_eq_true_eq]
            rw [hmembers a ha]
            exact hc
          rw [hlf, lookupK_removeK_ne c₀ cat st.2 (fun hh => hc hh.symm)]
          simpa using h3

theorem foldl_append_getDflt (m : List (Str × List (Str × OrgEntry)))
    (init : List (Str × OrgEntry)) (ks : List Str) :
    ks.foldl (fun a c => a ++ getDflt m c []) init =
      init ++ (ks.map (fun c => getDflt m c [])).flatten := by
  induction ks generalizing init with
  | nil => simp
  | cons c ks ih =>
    simp only [List.foldl_cons, List.map_cons, List.flatten_cons, ih, List.append_assoc]

theorem filter_flatten_eq (p : α → Bool) (L : List (List α)) :
    L.flatten.filter p = (L.map (List.filter p)).flatten := by
  induction L with
  | nil => rfl
  | cons l L ih => simp [List.filter_append, ih]

theorem flatten_single_key (ks : List Str) (hnd : ks.Nodup) (c₀ : Str)
    (f : Str → List (Str × OrgEntry)) (hne : ∀ c ∈ ks, c ≠ c₀ → f c = []) :
    (ks.map f).flatten = if c₀ ∈ ks then f c₀ else [] := by
  induction ks with
  | nil => simp
  | cons c ks ih =>
    rcases List.nodup_cons.mp hnd with ⟨hcmem, hnd'⟩
    simp only [List.map_cons, List.flatten_cons]
    by_cases hc : c = c₀
    · subst hc
      have hrest : (ks.map f).flatten = [] := by
        rw [ih hnd' (fun c' hc' h' => hne c' (List.mem_cons_of_mem _ hc') h')]
        rw [if_neg hcmem]
      rw [hrest, if_pos (List.mem_cons_self _ _), List.append_nil]
    · rw [hne c (List.mem_cons_self _ _) hc, List.nil_append,
        ih hnd' (fun c' hc' h' => hne c' (List.mem_cons_of_mem _ hc') h')]
      by_cases hmem : c₀ ∈ ks
      · rw [if_pos hmem, if_pos (List.mem_cons_of_mem _ hmem)]
      · rw [if_neg hmem, if_neg ?_]
        intro hcontra
        rcases List.mem_cons.mp hcontra with hh | hh
        · exact hc hh.symm
        · exact hmem hh

set_option synthInstance.maxHeartbeats 400000 in
theorem filter_sort_channels (chans : List (Str × OrgEntry)) (cfg : Config) (c₀ : Str) :
    (sort_channels_by_category chans cfg).filter (fun x => decide (catOf x.2 = c₀)) =
      (lookupK c₀
        ((groupByCategory chans).map fun g => (g.1, sortGroupList g.1 g.2))).getD [] := by
  set sg := (groupByCategory chans).map fun g => (g.1, sortGroupList g.1 g.2) with hsgdef
  have hsgchar : ∀ k l, lookupK k sg = some l → ∀ x ∈ l, catOf x.2 = k :=
    fun k l h => (sortedGroups_char chans k l h).2
  have hsgnodup : (sg.map Prod.fst).Nodup := by
    have : sg.map Prod.fst = (groupByCategory chans).map Prod.fst := by
      rw [hsgdef, List.map_map]
      rfl
    rw [this]
    exact groupByCategory_keys_nodup chans
  obtain ⟨h1, h2, h3⟩ := assemble_fold_inv sg c₀ hsgchar cfg.categories ([], sg)
    hsgnodup (fun k l h => h) (by simp)
  show ((pySorted pyStrLe ((cfg.categories.foldl assembleStep ([], sg)).2.map (·.1))).foldl
      (fun acc c => acc ++ getDflt (cfg.categories.foldl assembleStep ([], sg)).2 c [])
      (cfg.categories.foldl assembleStep ([], sg)).1).filter _ = _
  set stf := cfg.categories.foldl assembleStep ([], sg) with hstf
  set ks := pySorted pyStrLe (stf.2.map (·.1)) with hks
  have hksnodup : ks.Nodup := by
    rw [hks]
    exact (pySorted_perm pyStrLe _).nodup_iff.mpr h1
  rw [foldl_append_getDflt, List.filter_append, filter_flatten_eq, List.map_map]
  have hsingle :
      (ks.map (List.filter (fun x => decide (catOf x.2 = c₀)) ∘ fun c => getDflt stf.2 c
        [])).flatten =
      if c₀ ∈ ks then (getDflt stf.2 c₀ []).filter (fun x => decide (catOf x.2 = c₀))
      else [] := by
    refine flatten_single_key ks hksnodup c₀ _ ?_
    intro c hc hne
    simp only [Function.comp_apply]
    cases hl : lookupK c stf.2 with
    | none => simp [getDflt, hl]
    | some l =>
      have hmem : ∀ x ∈ l, catOf x.2 = c := hsgchar c l (h2 c l hl)
      simp only [getDflt, hl, Option.getD_some]
      rw [List.filter_eq_nil_iff]
      intro a ha
      simp only [decide_eq_true_eq]
      rw [hmem a ha]
      exact hne
  rw [hsingle]
  by_cases hmem : c₀ ∈ ks
  · have hmem' : c₀ ∈ stf.2.map Prod.fst := by
      have := (pySorted_perm pyStrLe (stf.2.map (·.1))).mem_iff.mp (hks ▸ hmem)
      simpa using this
    cases hl : lookupK c₀ stf.2 with
    | none => exact absurd ((lookupK_eq_none_iff c₀ stf.2).mp hl) (by simpa using hmem')
    | some l₀ =>
      have hmembers : ∀ x ∈ l₀, catOf x.2 = c₀ := hsgchar c₀ l₀ (h2 c₀ l₀ hl)
      have hfl : l₀.filter (fun x => decide (catOf x.2 = c₀)) = l₀ := by
        rw [List.filter_eq_self]
        intro a ha
        exact decide_eq_true (hmembers a ha)
      rw [if_pos hmem]
      simp only [getDflt, hl, Option.getD_some, hfl]
      rw [hl] at h3
      simpa using h3
  · rw [if_neg hmem]
    have hnone : lookupK c₀ stf.2 = none := by
      rw [lookupK_eq_none_iff]
      intro hcontra
      exact hmem (by
        rw [hks]
        exact (pySorted_perm pyStrLe (stf.2.map (·.1))).mem_iff.mpr (by simpa using hcontra))
    rw [hnone] at h3
    simpa using h3

/-- C8 amended: the CCTV-category segment of the sorted output is the stable
sort of the category's channels by `extract_cctv_number`, whose keys are
therefore ascending (so for extractable numbers `n1 < n2` the `n1` channel
comes first, and unnumbered channels keep their original relative order);
but unnumbered channels carry the sentinel key `999`, so they appear after
all channels with number `< 999` and BEFORE any channel whose extracted
number is `≥ 999` — not after ALL numbered channels as the claim states. -/
theorem c8_amended_theorem (chans : List (Str × OrgEntry)) (cfg : Config) :
    ((sort_channels_by_category chans cfg).filter
        (fun x => decide (catOf x.2 = str "央视频道")) =
      pySorted cctvLe (chans.filter (fun x => decide (catOf x.2 = str "央视频道"))))
    ∧ ((sort_channels_by_category chans cfg).filter
        (fun x => decide (catOf x.2 = str "央视频道"))).Pairwise
        (fun x y => extract_cctv_number x.1 ≤ extract_cctv_number y.1)
    ∧ ((sort_channels_by_category chans cfg).filter
        (fun x => decide (catOf x.2 = str "央视频道"))).filter
        (fun x => decide (cctvSearch x.1 = none)) =
      (chans.filter (fun x => decide (catOf x.2 = str "央视频道"))).filter
        (fun x => decide (cctvSearch x.1 = none))
    ∧ ((sort_channels_by_category chans cfg).filter
        (fun x => decide (catOf x.2 = str "央视频道"))).Pairwise
        (fun x y => cctvSearch x.1 = none → ∀ n, cctvSearch y.1 = some n → 999 ≤ n) := by
  set S := chans.filter (fun x => decide (catOf x.2 = str "央视频道")) with hS
  have hseg : (sort_channels_by_category chans cfg).filter
      (fun x => decide (catOf x.2 = str "央视频道")) = pySorted cctvLe S := by
    rw [filter_sort_channels chans cfg (str "央视频道"), lookupK_map_val,
      lookupK_groupByCategory]
    by_cases hf : chans.filter (fun x => decide (catOf x.2 = str "央视频道")) = []
    · rw [if_pos hf]
      rw [← hS] at hf
      rw [hf]
      rfl
    · rw [if_neg hf]
      simp only [Option.map_some', Option.getD_some, sortGroupList, if_pos rfl]
      rfl
  have hkey : cctvLe = fun x y : Str × OrgEntry =>
      decide ((fun z : Str × OrgEntry => extract_cctv_number z.1) x ≤
        (fun z : Str × OrgEntry => extract_cctv_number z.1) y) := rfl
  have hpw : (pySorted cctvLe S).Pairwise
      (fun x y => extract_cctv_number x.1 ≤ extract_cctv_number y.1) := by
    rw [hkey]
    exact pySorted_pairwise_key (fun z : Str × OrgEntry => extract_cctv_number z.1) S
  have hstable : (pySorted cctvLe S).filter (fun x => decide (cctvSearch x.1 = none)) =
      S.filter (fun x => decide (cctvSearch x.1 = none)) := by
    have hsub : ∀ l : List (Str × OrgEntry),
        l.filter (fun x => decide (cctvSearch x.1 = none)) =
          (l.filter (fun z => decide ((fun w : Str × OrgEntry =>
            extract_cctv_number w.1) z = 999))).filter
            (fun x => decide (cctvSearch x.1 = none)) := by
      intro l
      rw [List.filter_filter]
      refine (List.filter_congr ?_).symm
      intro x _
      by_cases hx : cctvSearch x.1 = none
      · have h999 : extract_cctv_number x.1 = 999 := by
          rw [extract_cctv_number, hx]
          rfl
        simp [hx, h999]
      · simp [hx]
    rw [hsub (pySorted cctvLe S), hsub S]
    have hst : (pySorted cctvLe S).filter (fun z => decide ((fun w : Str × OrgEntry =>
        extract_cctv_number w.1) z = 999)) =
        S.filter (fun z => decide ((fun w : Str × OrgEntry =>
          extract_cctv_number w.1) z = 999)) := by
      rw [hkey]
      exact filter_pySorted_key (fun w : Str × OrgEntry => extract_cctv_number w.1) 999 S
    rw [hst]
  refine ⟨hseg, by rw [hseg]; exact hpw, by rw [hseg]; exact hstable, ?_⟩
  rw [hseg]
  refine hpw.imp ?_
  intro a b hab
  intro ha n hb
  rw [extract_cctv_number, extract_cctv_number, ha, hb] at hab
  exact hab

/-- C8 counterexample: in the CCTV category an unnumbered channel (`XYZ`,
sentinel key 999) sorts BEFORE the numbered channel `CCTV1000` (key 1000),
contradicting "every channel without an extractable number appears after all
channels that have one". -/
theorem c8_counterexample :
    sort_channels_by_category [(str "CCTV1000", cctvEnt), (str "XYZ", cctvEnt)] cfg0 =
      [(str "XYZ", cctvEnt), (str "CCTV1000", cctvEnt)]
    ∧ cctvSearch (str "XYZ") = none
    ∧ cctvSearch (str "CCTV1000") = some 1000 := by
  decide

/-! ## C9: serializer/parser round trip -/

/-- C9 counterexample: rendering a channel that carries a non-empty `tvg-id`
(`X`) and parsing the result back keys the record by the `tvg-id`, not by the
channel name (`A`) under which it was rendered — the set of
`(key, primary URL)` pairs is NOT reproduced. -/
theorem c9_counterexample :
    parsedPairs (parse_m3u_content (generate_m3u [tvgChan])) = [(str "X", str "u:1")]
    ∧ renderedPairs [tvgChan] = [(str "A", str "u:1")]
    ∧ (str "A", str "u:1") ∉ parsedPairs (parse_m3u_content (generate_m3u [tvgChan])) := by
  decide

theorem dropWhile_append_of_ne_nil (p : Char → Bool) (a b : Str)
    (h : a.dropWhile p ≠ []) : (a ++ b).dropWhile p = a.dropWhile p ++ b := by
  induction a with
  | nil => exact absurd rfl h
  | cons c r ih =>
    by_cases hc : p c
    · rw [List.cons_append, List.dropWhile_cons_of_pos hc, List.dropWhile_cons_of_pos hc]
      exact ih (by rwa [List.dropWhile_cons_of_pos hc] at h)
    · rw [List.cons_append, List.dropWhile_cons_of_neg hc, List.dropWhile_cons_of_neg hc]
      rfl

theorem takeWhile_append_of_ne_nil (p : Char → Bool) (a b : Str)
    (h : a.dropWhile p ≠ []) : (a ++ b).takeWhile p = a.takeWhile p := by
  induction a with
  | nil => exact absurd rfl h
  | cons c r ih =>
    by_cases hc : p c
    · rw [List.cons_append, List.takeWhile_cons_of_pos hc, List.takeWhile_cons_of_pos hc]
      rw [ih (by rwa [List.dropWhile_cons_of_pos hc] at h)]
    · rw [List.cons_append, List.takeWhile_cons_of_neg hc, List.takeWhile_cons_of_neg hc]

theorem dropWhile_append_all (p : Char → Bool) (a b : Str)
    (h : ∀ c ∈ a, p c = true) : (a ++ b).dropWhile p = b.dropWhile p := by
  induction a with
  | nil => rfl
  | cons c r ih =>
    rw [List.cons_append, List.dropWhile_cons_of_pos (h c (List.mem_cons_self _ _))]
    exact ih fun x hx => h x (List.mem_cons_of_mem _ hx)

theorem takeWhile_append_all (p : Char → Bool) (a b : Str)
    (h : ∀ c ∈ a, p c = true) : (a ++ b).takeWhile p = a ++ b.takeWhile p := by
  induction a with
  | nil => rfl
  | cons c r ih =>
    rw [List.cons_append, List.takeWhile_cons_of_pos (h c (List.mem_cons_self _ _)),
      ih fun x hx => h x (List.mem_cons_of_mem _ hx)]
    rfl

theorem dropWhile_eq_self_of_head (p : Char → Bool) (l : Str)
    (h : ∀ c, l.head? = some c → p c = false) : l.dropWhile p = l := by
  cases l with
  | nil => rfl
  | cons c r => exact List.dropWhile_cons_of_neg (by simp [h c rfl])

theorem pyStrip_eq_self (l : Str)
    (h1 : ∀ c, l.head? = some c → isPySpace c = false)
    (h2 : ∀ c, l.getLast? = some c → isPySpace c = false) : pyStrip l = l := by
  unfold pyStrip
  rw [dropWhile_eq_self_of_head _ _ h1,
    dropWhile_eq_self_of_head _ _ (by rwa [List.head?_reverse]), List.reverse_reverse]

theorem dropWhile_eq_self_of_length (p : Char → Bool) (l : Str)
    (h : (l.dropWhile p).length = l.length) : l.dropWhile p = l :=
  (List.dropWhile_sublist p).eq_of_length h

theorem pyStrip_self_parts (l : Str) (h : pyStrip l = l) :
    l.dropWhile isPySpace = l ∧ l.reverse.dropWhile isPySpace = l.reverse := by
  have hlen1 : (l.dropWhile isPySpace).length ≤ l.length :=
    (List.dropWhile_sublist _).length_le
  have hlen2 : (pyStrip l).length ≤ (l.dropWhile isPySpace).length := by
    unfold pyStrip
    rw [List.length_reverse]
    calc ((l.dropWhile isPySpace).reverse.dropWhile isPySpace).length
        ≤ (l.dropWhile isPySpace).reverse.length := (List.dropWhile_sublist _).length_le
      _ = (l.dropWhile isPySpace).length := List.length_reverse _
  rw [h] at hlen2
  have heq1 : l.dropWhile isPySpace = l :=
    dropWhile_eq_self_of_length _ _ (le_antisymm hlen1 hlen2)
  refine ⟨heq1, ?_⟩
  have h' : pyStrip l = l := h
  unfold pyStrip at h'
  rw [heq1] at h'
  have : (l.reverse.dropWhile isPySpace).reverse.reverse = l.reverse :=
    congrArg List.reverse h'
  rwa [List.reverse_reverse] at this

theorem head_not_space_of_dropWhile_self (l : Str) (h : l.dropWhile isPySpace = l) :
    ∀ c, l.head? = some c → isPySpace c = false := by
  intro c hc
  cases l with
  | nil => simp at hc
  | cons c' r =>
    have hc' : c' = c := by simpa using hc
    subst hc'
    by_cases hp : isPySpace c'
    · rw [List.dropWhile_cons_of_pos hp] at h
      have : (r.dropWhile isPySpace).length ≤ r.length := (List.dropWhile_sublist _).length_le
      rw [h] at this
      simp at this
    · simpa using hp

theorem pyStrip_self_head (l : Str) (h : pyStrip l = l) :
    ∀ c, l.head? = some c → isPySpace c = false :=
  head_not_space_of_dropWhile_self l (pyStrip_self_parts l h).1

theorem pyStrip_self_last (l : Str) (h : pyStrip l = l) :
    ∀ c, l.getLast? = some c → isPySpace c = false := by
  intro c hc
  refine head_not_space_of_dropWhile_self l.reverse (pyStrip_self_parts l h).2 c ?_
  rwa [List.head?_reverse]

theorem splitNl_ne_nil (s : Str) : splitNl s ≠ [] := by
  cases s with
  | nil => simp [splitNl]
  | cons c r =>
    by_cases hc : c = '\n'
    · simp [splitNl, hc]
    · simp only [splitNl, if_neg hc]
      cases splitNl r <;> simp

theorem splitNl_no_nl (l : Str) (h : '\n' ∉ l) : splitNl l = [l] := by
  induction l with
  | nil => rfl
  | cons c r ih =>
    have hc : c ≠ '\n' := fun hh => h (hh ▸ List.mem_cons_self _ _)
    have hr : '\n' ∉ r := fun hh => h (List.mem_cons_of_mem _ hh)
    simp only [splitNl, if_neg hc, ih hr]

theorem splitNl_append (a t : Str) (h : '\n' ∉ a) :
    splitNl (a ++ '\n' :: t) = a :: splitNl t := by
  induction a with
  | nil => simp [splitNl]
  | cons c r ih =>
    have hc : c ≠ '\n' := fun hh => h (hh ▸ List.mem_cons_self _ _)
    have hr : '\n' ∉ r := fun hh => h (List.mem_cons_of_mem _ hh)
    simp only [List.cons_append, splitNl, if_neg hc, List.append_eq, ih hr]

theorem joinSepNl_cons (l : Str) (rest : List Str) (h : rest ≠ []) :
    joinSepNl (l :: rest) = l ++ '\n' :: joinSepNl rest := by
  cases rest with
  | nil => exact absurd rfl h
  | cons a b => rfl

theorem joinLinesNl_eq_joinSep (ls : List Str) (last : Str) :
    joinLinesNl (ls ++ [last]) = joinSepNl (ls ++ [last]) ++ ['\n'] := by
  induction ls with
  | nil => rfl
  | cons l ls ih =>
    rw [List.cons_append, joinSepNl_cons l (ls ++ [last]) (by simp)]
    show l ++ '\n' :: joinLinesNl (ls ++ [last]) = _
    rw [ih]
    simp

theorem joinSepNl_ne_nil (ls : List Str) (last : Str) (h : last ≠ []) :
    joinSepNl (ls ++ [last]) ≠ [] := by
  cases ls with
  | nil => exact h
  | cons l ls =>
    rw [List.cons_append, joinSepNl_cons l (ls ++ [last]) (by simp)]
    simp

theorem getLast?_append_right (a b : Str) (h : b ≠ []) :
    (a ++ b).getLast? = b.getLast? := by
  obtain ⟨v, hv⟩ : ∃ v, b.getLast? = some v := by
    cases b with
    | nil => exact absurd rfl h
    | cons x y => exact ⟨_, List.getLast?_cons⟩
  induction a with
  | nil => rfl
  | cons c r ih =>
    rw [List.cons_append, List.getLast?_cons, ih, hv]
    simp

theorem getLast?_joinSepNl (ls : List Str) (last : Str) (h : last ≠ []) :
    (joinSepNl (ls ++ [last])).getLast? = last.getLast? := by
  induction ls with
  | nil => rfl
  | cons l ls ih =>
    rw [List.cons_append, joinSepNl_cons l (ls ++ [last]) (by simp)]
    have hne : ('\n' :: joinSepNl (ls ++ [last])) ≠ [] := by simp
    rw [getLast?_append_right l _ hne]
    have : '\n' :: joinSepNl (ls ++ [last]) = ['\n'] ++ joinSepNl (ls ++ [last]) := rfl
    rw [this, getLast?_append_right ['\n'] _ (joinSepNl_ne_nil ls last h), ih]

theorem head?_joinSepNl (l : Str) (rest : List Str) (h : l ≠ []) :
    (joinSepNl (l :: rest)).head? = l.head? := by
  cases rest with
  | nil => rfl
  | cons a b =>
    rw [joinSepNl_cons l (a :: b) (by simp)]
    cases l with
    | nil => exact absurd rfl h
    | cons c r => rfl

theorem splitNl_joinSepNl (lines : List Str) (h : ∀ l ∈ lines, '\n' ∉ l)
    (hne : lines ≠ []) : splitNl (joinSepNl lines) = lines := by
  induction lines with
  | nil => exact absurd rfl hne
  | cons l rest ih =>
    cases rest with
    | nil => exact splitNl_no_nl l (h l (List.mem_cons_self _ _))
    | cons a b =>
      rw [joinSepNl_cons l (a :: b) (by simp),
        splitNl_append l _ (h l (List.mem_cons_self _ _)),
        ih (fun x hx => h x (List.mem_cons_of_mem _ hx)) (by simp)]

theorem pyStrip_joinSep_newline (s : Str)
    (hh : ∀ c, s.head? = some c → isPySpace c = false)
    (hl : ∀ c, s.getLast? = some c → isPySpace c = false) (hs : s ≠ []) :
    pyStrip (s ++ ['\n']) = s := by
  unfold pyStrip
  have h1 : (s ++ ['\n']).dropWhile isPySpace = s ++ ['\n'] := by
    refine dropWhile_eq_self_of_head _ _ ?_
    intro c hc
    cases s with
    | nil => exact absurd rfl hs
    | cons c' r =>
      have : c' = c := by simpa using hc
      exact this ▸ hh c' rfl
  have hrev : (s ++ ['\n']).reverse = '\n' :: s.reverse := by simp
  rw [h1, hrev, List.dropWhile_cons_of_pos (by decide),
    dropWhile_eq_self_of_head _ _
      (by intro c hc; rw [List.head?_reverse] at hc; exact hl c hc),
    List.reverse_reverse]

theorem tryMatchAttr_length (s : Str) (k v rest : Str)
    (h : tryMatchAttr s = some (k, v, rest)) : rest.length < s.length := by
  cases s with
  | nil => simp [tryMatchAttr] at h
  | cons c r =>
    simp only [tryMatchAttr] at h
    by_cases hc : isWordChar c
    · rw [if_pos hc] at h
      set r1 := (r.dropWhile isNameChar).dropWhile isPySpace with hr1
      by_cases h1 : r1.head? = some '='
      · rw [if_pos h1] at h
        set r2 := r1.tail.dropWhile isPySpace with hr2
        by_cases h2 : r2.head? = some '"'
        · rw [if_pos h2] at h
          set rr := r2.tail.dropWhile (· ≠ '"') with hrr
          by_cases h3 : rr.isEmpty
          · rw [if_pos h3] at h
            simp at h
          · rw [if_neg h3] at h
            simp only [Option.some.injEq, Prod.mk.injEq] at h
            have hrest : rest = rr.tail := h.2.2.symm
            have e1 : r1.length ≤ r.length := by
              rw [hr1]
              calc ((r.dropWhile isNameChar).dropWhile isPySpace).length
                  ≤ (r.dropWhile isNameChar).length := (List.dropWhile_sublist _).length_le
                _ ≤ r.length := (List.dropWhile_sublist _).length_le
            have e2 : 0 < r1.length := by
              cases hx : r1 with
              | nil => rw [hx] at h1; simp at h1
              | cons a b => simp [hx]
            have e3 : r2.length ≤ r1.length - 1 := by
              rw [hr2]
              calc (r1.tail.dropWhile isPySpace).length
                  ≤ r1.tail.length := (List.dropWhile_sublist _).length_le
                _ = r1.length - 1 := List.length_tail _
            have e4 : rr.length ≤ r2.length - 1 := by
              rw [hrr]
              calc (r2.tail.dropWhile (· ≠ '"')).length
                  ≤ r2.tail.length := (List.dropWhile_sublist _).length_le
                _ = r2.length - 1 := List.length_tail _
            have e5 : rest.length = rr.length - 1 := by
              rw [hrest, List.length_tail]
            simp only [List.length_cons]
            omega
        · rw [if_neg h2] at h; simp at h
      · rw [if_neg h1] at h; simp at h
    · rw [if_neg hc] at h; simp at h

theorem findAttrsFuel_nil (f : Nat) : findAttrsFuel f [] = [] := by
  cases f <;> rfl

theorem findAttrsFuel_eq (f₁ : Nat) : ∀ (f₂ : Nat) (s : Str),
    s.length ≤ f₁ → s.length ≤ f₂ → findAttrsFuel f₁ s = findAttrsFuel f₂ s := by
  induction f₁ with
  | zero =>
    intro f₂ s h₁ _
    rw [List.length_eq_zero.mp (Nat.le_zero.mp h₁), findAttrsFuel_nil, findAttrsFuel_nil]
  | succ f ih =>
    intro f₂ s h₁ h₂
    cases s with
    | nil => rw [findAttrsFuel_nil, findAttrsFuel_nil]
    | cons c r =>
      cases f₂ with
      | zero => simp at h₂
      | succ g =>
        simp only [List.length_cons, Nat.add_le_add_iff_right] at h₁ h₂
        cases hm : tryMatchAttr (c :: r) with
        | none =>
          show (match tryMatchAttr (c :: r) with
            | some (k, v, rest) => (k, v) :: findAttrsFuel f rest
            | none => findAttrsFuel f r) =
            (match tryMatchAttr (c :: r) with
            | some (k, v, rest) => (k, v) :: findAttrsFuel g rest
            | none => findAttrsFuel g r)
          rw [hm]
          show findAttrsFuel f r = findAttrsFuel g r
          exact ih g r h₁ h₂
        | some kvr =>
          obtain ⟨k, v, rest⟩ := kvr
          have hlen := tryMatchAttr_length (c :: r) k v rest hm
          simp only [List.length_cons] at hlen
          show (match tryMatchAttr (c :: r) with
            | some (k, v, rest) => (k, v) :: findAttrsFuel f rest
            | none => findAttrsFuel f r) =
            (match tryMatchAttr (c :: r) with
            | some (k, v, rest) => (k, v) :: findAttrsFuel g rest
            | none => findAttrsFuel g r)
          rw [hm]
          show (k, v) :: findAttrsFuel f rest = (k, v) :: findAttrsFuel g rest
          rw [ih g rest (by omega) (by omega)]

theorem findAttrs_skip (c : Char) (r : Str) (h : tryMatchAttr (c :: r) = none) :
    findAttrs (c :: r) = findAttrs r := by
  show findAttrsFuel (c :: r).length (c :: r) = _
  rw [List.length_cons]
  show (match tryMatchAttr (c :: r) with
    | some (k, v, rest) => (k, v) :: findAttrsFuel r.length rest
    | none => findAttrsFuel r.length r) = _
  rw [h]
  rfl

theorem findAttrs_match (c : Char) (r : Str) (k v rest : Str)
    (h : tryMatchAttr (c :: r) = some (k, v, rest)) :
    findAttrs (c :: r) = (k, v) :: findAttrs rest := by
  show findAttrsFuel (c :: r).length (c :: r) = _
  rw [List.length_cons]
  show (match tryMatchAttr (c :: r) with
    | some (k, v, rest) => (k, v) :: findAttrsFuel r.length rest
    | none => findAttrsFuel r.length r) = _
  rw [h]
  have hlen := tryMatchAttr_length (c :: r) k v rest h
  simp only [List.length_cons] at hlen
  show (k, v) :: findAttrsFuel r.length rest = _
  rw [findAttrsFuel_eq r.length rest.length rest (by omega) (le_refl _)]
  rfl

theorem tryMatchAttr_nonword (c : Char) (r : Str) (h : isWordChar c = false) :
    tryMatchAttr (c :: r) = none := by
  simp [tryMatchAttr, h]

/-- Failure of an anchored attribute match when the concrete region `a`
already contains the stopping character and it is not `=`. -/
theorem tryMatchAttr_concrete_fail (c : Char) (a b : Str)
    (hc : isWordChar c = true)
    (ha : (a.dropWhile isNameChar).dropWhile isPySpace ≠ [])
    (hne : ((a.dropWhile isNameChar).dropWhile isPySpace).head? ≠ some '=') :
    tryMatchAttr (c :: (a ++ b)) = none := by
  have ha1 : a.dropWhile isNameChar ≠ [] := by
    intro hx
    rw [hx] at ha
    exact ha rfl
  have h1 : (a ++ b).dropWhile isNameChar = a.dropWhile isNameChar ++ b :=
    dropWhile_append_of_ne_nil _ a b ha1
  have h2 : (a.dropWhile isNameChar ++ b).dropWhile isPySpace =
      (a.dropWhile isNameChar).dropWhile isPySpace ++ b :=
    dropWhile_append_of_ne_nil _ _ b ha
  have h3 : ((a.dropWhile isNameChar).dropWhile isPySpace ++ b).head? ≠ some '=' := by
    cases hx : (a.dropWhile isNameChar).dropWhile isPySpace with
    | nil => exact absurd hx ha
    | cons d rest =>
      rw [hx] at hne
      simpa using hne
  simp only [tryMatchAttr, if_pos hc, h1, h2]
  rw [if_neg h3]

/-- Success of an anchored attribute match on a well-formed
`name="value"` region. -/
theorem tryMatchAttr_exact (c : Char) (nt v after : Str)
    (hc : isWordChar c = true) (hnt : ∀ x ∈ nt, isNameChar x = true)
    (hv : ∀ x ∈ v, x ≠ '"') :
    tryMatchAttr (c :: (nt ++ '=' :: '"' :: (v ++ '"' :: after))) =
      some (c :: nt, v, after) := by
  have h1 : (nt ++ '=' :: '"' :: (v ++ '"' :: after)).takeWhile isNameChar = nt := by
    rw [takeWhile_append_all _ _ _ hnt, List.takeWhile_cons_of_neg (by decide)]
    simp
  have h2 : (nt ++ '=' :: '"' :: (v ++ '"' :: after)).dropWhile isNameChar =
      '=' :: '"' :: (v ++ '"' :: after) := by
    rw [dropWhile_append_all _ _ _ hnt, List.dropWhile_cons_of_neg (by decide)]
  have h3 : ('=' :: '"' :: (v ++ '"' :: after)).dropWhile isPySpace =
      '=' :: '"' :: (v ++ '"' :: after) := List.dropWhile_cons_of_neg (by decide)
  have h5 : (v ++ '"' :: after).takeWhile (· ≠ '"') = v := by
    rw [takeWhile_append_all _ _ _ (by intro x hx; simpa using hv x hx),
      List.takeWhile_cons_of_neg (by simp)]
    simp
  have h6 : (v ++ '"' :: after).dropWhile (· ≠ '"') = '"' :: after := by
    rw [dropWhile_append_all _ _ _ (by intro x hx; simpa using hv x hx),
      List.dropWhile_cons_of_neg (by simp)]
  have h4 : ('"' :: (v ++ '"' :: after)).dropWhile isPySpace =
      '"' :: (v ++ '"' :: after) := List.dropWhile_cons_of_neg (by decide)
  simp only [tryMatchAttr, if_pos hc]
  rw [h2, h3]
  rw [if_pos (show ('=' :: '"' :: (v ++ '"' :: after)).head? = some '=' from rfl)]
  rw [List.tail_cons, h4]
  rw [if_pos (show ('"' :: (v ++ '"' :: after)).head? = some '"' from rfl)]
  rw [List.tail_cons, h5, h6, h1]
  rw [if_neg (show ¬(('"' :: after).isEmpty = true) from by simp)]
  rfl


theorem splitFirstComma_append (a t : Str) (h : ',' ∉ a) :
    splitFirstComma (a ++ t) = (a ++ (splitFirstComma t).1, (splitFirstComma t).2) := by
  induction a with
  | nil => simp [splitFirstComma]
  | cons c r ih =>
    have hc : c ≠ ',' := fun hh => h (hh ▸ List.mem_cons_self _ _)
    have hr : ',' ∉ r := fun hh => h (List.mem_cons_of_mem _ hh)
    simp only [List.cons_append, splitFirstComma, if_neg hc, List.append_eq, ih hr]

theorem not_mem_of_not_mem_str (c : Char) (v : Str) (h : c ∉ v) :
    ∀ x ∈ v, x ≠ c := fun _ hx hh => h (hh ▸ hx)

/-- `parse_extinf` applied to the exact line shape written by
`generate_m3u` with an empty `tvg-id` value: the trailing title is
recovered (stripped) along with the three written attributes. -/
theorem parse_extinf_rendered (n C L : Str)
    (hC1 : '"' ∉ C) (hC2 : ',' ∉ C) (hL1 : '"' ∉ L) (hL2 : ',' ∉ L) :
    parse_extinf (str "#EXTINF:-1 group-title=\"" ++ (C ++ (str "\" tvg-id=\"" ++
        (str "\" tvg-logo=\"" ++ (L ++ (str "\"," ++ n)))))) =
      [(str "title", pyStrip n), (str "group-title", C), (str "tvg-id", []),
       (str "tvg-logo", L)] := by
  have hsfc : splitFirstComma (str "#EXTINF:-1 group-title=\"" ++ (C ++ (str "\" tvg-id=\"" ++
      (str "\" tvg-logo=\"" ++ (L ++ (str "\"," ++ n)))))) =
      (str "#EXTINF:-1 group-title=\"" ++ (C ++ (str "\" tvg-id=\"" ++
        (str "\" tvg-logo=\"" ++ (L ++ ['"'])))), some n) := by
    rw [splitFirstComma_append _ _ (by decide),
      splitFirstComma_append C _ hC2,
      splitFirstComma_append (str "\" tvg-id=\"") _ (by decide),
      splitFirstComma_append (str "\" tvg-logo=\"") _ (by decide),
      splitFirstComma_append L _ hL2]
    have hq : splitFirstComma (str "\"," ++ n) = (['"'], some n) := by
      show splitFirstComma ('"' :: ',' :: n) = (['"'], some n)
      simp [splitFirstComma]
    rw [hq]
  have hscan : findAttrs (str "#EXTINF:-1 group-title=\"" ++ (C ++ (str "\" tvg-id=\"" ++
      (str "\" tvg-logo=\"" ++ (L ++ ['"']))))) =
      [(str "group-title", C), (str "tvg-id", []), (str "tvg-logo", L)] := by
    show findAttrs ('#' :: (str "EXTINF:-1 group-title=\"" ++ (C ++ (str "\" tvg-id=\"" ++
      (str "\" tvg-logo=\"" ++ (L ++ ['"'])))))) = _
    rw [findAttrs_skip _ _ (tryMatchAttr_nonword _ _ (by decide))]
    show findAttrs ('E' :: (str "XTINF:-1 group-title=\"" ++ (C ++ (str "\" tvg-id=\"" ++
      (str "\" tvg-logo=\"" ++ (L ++ ['"'])))))) = _
    rw [findAttrs_skip _ _
      (tryMatchAttr_concrete_fail 'E' (str "XTINF:-1 group-title=\"") _
        (by decide) (by decide) (by decide))]
    show findAttrs ('X' :: (str "TINF:-1 group-title=\"" ++ (C ++ (str "\" tvg-id=\"" ++
      (str "\" tvg-logo=\"" ++ (L ++ ['"'])))))) = _
    rw [findAttrs_skip _ _
      (tryMatchAttr_concrete_fail 'X' (str "TINF:-1 group-title=\"") _
        (by decide) (by decide) (by decide))]
    show findAttrs ('T' :: (str "INF:-1 group-title=\"" ++ (C ++ (str "\" tvg-id=\"" ++
      (str "\" tvg-logo=\"" ++ (L ++ ['"'])))))) = _
    rw [findAttrs_skip _ _
      (tryMatchAttr_concrete_fail 'T' (str "INF:-1 group-title=\"") _
        (by decide) (by decide) (by decide))]
    show findAttrs ('I' :: (str "NF:-1 group-title=\"" ++ (C ++ (str "\" tvg-id=\"" ++
      (str "\" tvg-logo=\"" ++ (L ++ ['"'])))))) = _
    rw [findAttrs_skip _ _
      (tryMatchAttr_concrete_fail 'I' (str "NF:-1 group-title=\"") _
        (by decide) (by decide) (by decide))]
    show findAttrs ('N' :: (str "F:-1 group-title=\"" ++ (C ++ (str "\" tvg-id=\"" ++
      (str "\" tvg-logo=\"" ++ (L ++ ['"'])))))) = _
    rw [findAttrs_skip _ _
      (tryMatchAttr_concrete_fail 'N' (str "F:-1 group-title=\"") _
        (by decide) (by decide) (by decide))]
    show findAttrs ('F' :: (str ":-1 group-title=\"" ++ (C ++ (str "\" tvg-id=\"" ++
      (str "\" tvg-logo=\"" ++ (L ++ ['"'])))))) = _
    rw [findAttrs_skip _ _
      (tryMatchAttr_concrete_fail 'F' (str ":-1 group-title=\"") _
        (by decide) (by decide) (by decide))]
    show findAttrs (':' :: (str "-1 group-title=\"" ++ (C ++ (str "\" tvg-id=\"" ++
      (str "\" tvg-logo=\"" ++ (L ++ ['"'])))))) = _
    rw [findAttrs_skip _ _ (tryMatchAttr_nonword _ _ (by decide))]
    show findAttrs ('-' :: (str "1 group-title=\"" ++ (C ++ (str "\" tvg-id=\"" ++
      (str "\" tvg-logo=\"" ++ (L ++ ['"'])))))) = _
    rw [findAttrs_skip _ _ (tryMatchAttr_nonword _ _ (by decide))]
    show findAttrs ('1' :: (str " group-title=\"" ++ (C ++ (str "\" tvg-id=\"" ++
      (str "\" tvg-logo=\"" ++ (L ++ ['"'])))))) = _
    rw [findAttrs_skip _ _
      (tryMatchAttr_concrete_fail '1' (str " group-title=\"") _
        (by decide) (by decide) (by decide))]
    show findAttrs (' ' :: (str "group-title=\"" ++ (C ++ (str "\" tvg-id=\"" ++
      (str "\" tvg-logo=\"" ++ (L ++ ['"'])))))) = _
    rw [findAttrs_skip _ _ (tryMatchAttr_nonword _ _ (by decide))]
    show findAttrs ('g' :: (str "roup-title" ++ '=' :: '"' :: (C ++ '"' ::
      (str " tvg-id=\"" ++ (str "\" tvg-logo=\"" ++ (L ++ ['"'])))))) = _
    rw [findAttrs_match _ _ _ _ _
      (tryMatchAttr_exact 'g' (str "roup-title") C
        (str " tvg-id=\"" ++ (str "\" tvg-logo=\"" ++ (L ++ ['"'])))
        (by decide) (by decide) (not_mem_of_not_mem_str '"' C hC1))]
    show ((str "group-title", C) ::
      findAttrs (' ' :: (str "tvg-id=\"" ++ (str "\" tvg-logo=\"" ++ (L ++ ['"']))))) = _
    rw [findAttrs_skip _ _ (tryMatchAttr_nonword _ _ (by decide))]
    show ((str "group-title", C) ::
      findAttrs ('t' :: (str "vg-id" ++ '=' :: '"' :: ([] ++ '"' ::
        (str " tvg-logo=\"" ++ (L ++ ['"'])))))) = _
    rw [findAttrs_match _ _ _ _ _
      (tryMatchAttr_exact 't' (str "vg-id") []
        (str " tvg-logo=\"" ++ (L ++ ['"']))
        (by decide) (by decide) (by intro x hx; cases hx))]
    show ((str "group-title", C) :: (str "tvg-id", []) ::
      findAttrs (' ' :: (str "tvg-logo=\"" ++ (L ++ ['"'])))) = _
    rw [findAttrs_skip _ _ (tryMatchAttr_nonword _ _ (by decide))]
    show ((str "group-title", C) :: (str "tvg-id", []) ::
      findAttrs ('t' :: (str "vg-logo" ++ '=' :: '"' :: (L ++ '"' :: [])))) = _
    rw [findAttrs_match _ _ _ _ _
      (tryMatchAttr_exact 't' (str "vg-logo") L []
        (by decide) (by decide) (not_mem_of_not_mem_str '"' L hL1))]
    rfl
  show (findAttrs (splitFirstComma _).1).foldl (fun m kv => setK m kv.1 kv.2)
      (match (splitFirstComma _).2 with
        | some t => setK [] (str "title") (pyStrip t)
        | none => []) = _
  rw [hsfc]
  show (findAttrs (str "#EXTINF:-1 group-title=\"" ++ (C ++ (str "\" tvg-id=\"" ++
      (str "\" tvg-logo=\"" ++ (L ++ ['"'])))))).foldl (fun m kv => setK m kv.1 kv.2)
      (setK [] (str "title") (pyStrip n)) = _
  rw [hscan]
  rfl

theorem append_ne_nil_right (a b : Str) (h : b ≠ []) : a ++ b ≠ [] := by
  intro hx
  exact h (List.append_eq_nil.mp hx).2

theorem channelIdOf_rendered (n C L : Str) (hn : n ≠ []) :
    channelIdOf [(str "title", n), (str "group-title", C), (str "tvg-id", []),
      (str "tvg-logo", L)] = some n := by
  have h : channelIdOf [(str "title", n), (str "group-title", C), (str "tvg-id", []),
      (str "tvg-logo", L)] = if n = [] then none else some n := rfl
  rw [h, if_neg hn]

/-- The `#EXTINF` line written by `generate_m3u`, re-associated to the shape
consumed by the scanner lemmas (assuming the rendered `tvg-id` is empty). -/
theorem extinfLineOf_eq (nm : Str) (e : OrgEntry)
    (hti : getDflt e.info (str "tvg-id") [] = []) :
    extinfLineOf nm e = str "#EXTINF:-1 group-title=\"" ++
      (getDflt e.info (str "group-title") (str "其他频道") ++ (str "\" tvg-id=\"" ++
        (str "\" tvg-logo=\"" ++ (getDflt e.info (str "tvg-logo") [] ++
          (str "\"," ++ nm))))) := by
  rw [extinfLineOf, hti]
  simp [List.append_assoc]

theorem extinfLine_head (nm : Str) (e : OrgEntry)
    (hti : getDflt e.info (str "tvg-id") [] = []) :
    (extinfLineOf nm e).head? = some '#' := by
  rw [extinfLineOf_eq nm e hti]
  rfl

theorem extinfLine_ne_nil (nm : Str) (e : OrgEntry)
    (hti : getDflt e.info (str "tvg-id") [] = []) :
    extinfLineOf nm e ≠ [] := by
  intro hx
  have := extinfLine_head nm e hti
  rw [hx] at this
  cases this

theorem extinfLine_last (nm : Str) (e : OrgEntry)
    (hti : getDflt e.info (str "tvg-id") [] = []) (hn : nm ≠ []) :
    (extinfLineOf nm e).getLast? = nm.getLast? := by
  rw [extinfLineOf_eq nm e hti]
  have e1 : (str "\"," ++ nm) ≠ [] := append_ne_nil_right _ _ hn
  have e2 : (getDflt e.info (str "tvg-logo") [] ++ (str "\"," ++ nm)) ≠ [] :=
    append_ne_nil_right _ _ e1
  have e3 : (str "\" tvg-logo=\"" ++ (getDflt e.info (str "tvg-logo") [] ++
      (str "\"," ++ nm))) ≠ [] := append_ne_nil_right _ _ e2
  have e4 : (str "\" tvg-id=\"" ++ (str "\" tvg-logo=\"" ++
      (getDflt e.info (str "tvg-logo") [] ++ (str "\"," ++ nm)))) ≠ [] :=
    append_ne_nil_right _ _ e3
  have e5 : (getDflt e.info (str "group-title") (str "其他频道") ++
      (str "\" tvg-id=\"" ++ (str "\" tvg-logo=\"" ++
        (getDflt e.info (str "tvg-logo") [] ++ (str "\"," ++ nm))))) ≠ [] :=
    append_ne_nil_right _ _ e4
  rw [getLast?_append_right _ _ e5, getLast?_append_right _ _ e4,
    getLast?_append_right _ _ e3, getLast?_append_right _ _ e2,
    getLast?_append_right _ _ e1, getLast?_append_right _ _ hn]

theorem extinfLine_strip (nm : Str) (e : OrgEntry)
    (hti : getDflt e.info (str "tvg-id") [] = [])
    (hstr : pyStrip nm = nm) (hn : nm ≠ []) :
    pyStrip (extinfLineOf nm e) = extinfLineOf nm e := by
  refine pyStrip_eq_self _ ?_ ?_
  · intro c hc
    rw [extinfLine_head nm e hti] at hc
    injection hc with h
    rw [← h]
    decide
  · intro c hc
    rw [extinfLine_last nm e hti hn] at hc
    exact pyStrip_self_last nm hstr c hc

theorem extinfLine_no_nl (nm : Str) (e : OrgEntry)
    (hti : getDflt e.info (str "tvg-id") [] = [])
    (hg : '\n' ∉ getDflt e.info (str "group-title") (str "其他频道"))
    (hl : '\n' ∉ getDflt e.info (str "tvg-logo") [])
    (hn : '\n' ∉ nm) : '\n' ∉ extinfLineOf nm e := by
  rw [extinfLineOf_eq nm e hti]
  intro hmem
  simp only [List.mem_append] at hmem
  rcases hmem with h | h | h | h | h | h | h
  · exact absurd h (by decide)
  · exact hg h
  · exact absurd h (by decide)
  · exact absurd h (by decide)
  · exact hl h
  · exact absurd h (by decide)
  · exact hn h

theorem extinfLine_isPre (nm : Str) (e : OrgEntry)
    (hti : getDflt e.info (str "tvg-id") [] = []) :
    isPre (str "#EXTINF") (extinfLineOf nm e) = true := by
  rw [extinfLineOf_eq nm e hti]
  rfl

theorem burlLine_strip (u2 : Str) (h : goodUrl u2) :
    pyStrip (str "#EXTBURL:" ++ u2) = str "#EXTBURL:" ++ u2 := by
  obtain ⟨h1, h2, _, _⟩ := h
  refine pyStrip_eq_self _ ?_ ?_
  · intro c hc
    have : (str "#EXTBURL:" ++ u2).head? = some '#' := rfl
    rw [this] at hc
    injection hc with hh
    rw [← hh]
    decide
  · intro c hc
    rw [getLast?_append_right _ _ h2] at hc
    exact pyStrip_self_last u2 h1 c hc

theorem burlLine_not_extinf (u2 : Str) :
    isPre (str "#EXTINF") (str "#EXTBURL:" ++ u2) = false := rfl

theorem findUrl_cons_good (u : Str) (tail : List Str) (h : goodUrl u) :
    findUrl (u :: tail) = some (u, tail) := by
  obtain ⟨h1, h2, h3, _⟩ := h
  simp [findUrl, h1, h2, h3]

theorem headD_mem_of_ne_nil (l : List Str) (h : l ≠ []) : l.headD [] ∈ l := by
  cases l with
  | nil => exact absurd rfl h
  | cons a t => exact List.mem_cons_self _ _

/-- One channel block of the generated file parses to exactly one event:
the channel name as id, the recovered attribute map, and the primary URL;
the loop then resumes at the next block. -/
theorem parseLoop_block (p : Str × OrgEntry) (rest : List Str) (h : goodChan p) :
    parseLoop (chLinesOf p ++ rest) =
      (p.1, renderedInfo p, p.2.sources.headD []) :: parseLoop rest := by
  obtain ⟨hstripN, hnne, _, hti, ⟨hgq, hgc, _⟩, ⟨hlq, hlc, _⟩, hsne, hus⟩ := h
  obtain ⟨hu1, hu2, hu3, hu4⟩ := hus _ (headD_mem_of_ne_nil _ hsne)
  have hstrip := extinfLine_strip p.1 p.2 hti hstripN hnne
  have hext : isPre (str "#EXTINF") (pyStrip (extinfLineOf p.1 p.2)) = true := by
    rw [hstrip]
    exact extinfLine_isPre p.1 p.2 hti
  have hinfo : parse_extinf (pyStrip (extinfLineOf p.1 p.2)) = renderedInfo p := by
    rw [hstrip, extinfLineOf_eq p.1 p.2 hti,
      parse_extinf_rendered p.1 _ _ hgq hgc hlq hlc, hstripN]
    rfl
  have hid : channelIdOf (parse_extinf (pyStrip (extinfLineOf p.1 p.2))) = some p.1 := by
    rw [hinfo]
    exact channelIdOf_rendered p.1 _ _ hnne
  by_cases hlen : p.2.sources.length > 1
  · have hu2mem : p.2.sources.getD 1 [] ∈ p.2.sources := by
      rw [List.getD_eq_getElem?_getD, List.getElem?_eq_getElem hlen]
      exact List.getElem_mem _
    have hb := hus _ hu2mem
    have hchl : chLinesOf p ++ rest = extinfLineOf p.1 p.2 :: p.2.sources.headD [] ::
        (str "#EXTBURL:" ++ p.2.sources.getD 1 []) :: rest := by
      rw [chLinesOf, if_pos hlen]
      rfl
    rw [hchl,
      parseLoop_url _ _ _ _ _ hext hid
        (findUrl_cons_good _ _ ⟨hu1, hu2, hu3, hu4⟩),
      hinfo,
      parseLoop_skip _ _ (by rw [burlLine_strip _ hb]; exact burlLine_not_extinf _)]
  · have hchl : chLinesOf p ++ rest = extinfLineOf p.1 p.2 :: p.2.sources.headD [] :: rest := by
      rw [chLinesOf, if_neg hlen]
      rfl
    rw [hchl,
      parseLoop_url _ _ _ _ _ hext hid
        (findUrl_cons_good _ _ ⟨hu1, hu2, hu3, hu4⟩),
      hinfo]

theorem parseLoop_flatMap (chans : List (Str × OrgEntry))
    (h : ∀ p ∈ chans, goodChan p) :
    parseLoop (chans.flatMap chLinesOf) =
      chans.map fun p => (p.1, renderedInfo p, p.2.sources.headD []) := by
  induction chans with
  | nil => rfl
  | cons p t ih =>
    rw [List.flatMap_cons, parseLoop_block p _ (h p (List.mem_cons_self _ _)),
      ih (fun q hq => h q (List.mem_cons_of_mem _ hq))]
    rfl

theorem goodLine_chLinesOf (p : Str × OrgEntry) (h : goodChan p) :
    ∀ l ∈ chLinesOf p, goodLine l := by
  obtain ⟨hstripN, hnne, hnl, hti, ⟨hgq, hgc, hgl⟩, ⟨hlq, hlc, hll⟩, hsne, hus⟩ := h
  have hext : goodLine (extinfLineOf p.1 p.2) :=
    ⟨extinfLine_strip p.1 p.2 hti hstripN hnne, extinfLine_ne_nil p.1 p.2 hti,
      extinfLine_no_nl p.1 p.2 hti hgl hll hnl⟩
  have hu := hus _ (headD_mem_of_ne_nil _ hsne)
  have hul : goodLine (p.2.sources.headD []) := ⟨hu.1, hu.2.1, hu.2.2.2⟩
  intro l hl
  rw [chLinesOf] at hl
  by_cases hlen : p.2.sources.length > 1
  · rw [if_pos hlen] at hl
    have hu2mem : p.2.sources.getD 1 [] ∈ p.2.sources := by
      rw [List.getD_eq_getElem?_getD, List.getElem?_eq_getElem hlen]
      exact List.getElem_mem _
    have hb := hus _ hu2mem
    have hbl : goodLine (str "#EXTBURL:" ++ p.2.sources.getD 1 []) := by
      refine ⟨burlLine_strip _ hb, ?_, ?_⟩
      · intro hx
        have : (str "#EXTBURL:" ++ p.2.sources.getD 1 []).head? = some '#' := rfl
        rw [hx] at this
        cases this
      · intro hx
        rcases List.mem_append.mp hx with h1 | h1
        · exact absurd h1 (by decide)
        · exact hb.2.2.2 h1
    simp only [List.cons_append, List.nil_append, List.mem_cons,
      List.not_mem_nil, or_false] at hl
    rcases hl with rfl | rfl | rfl
    · exact hext
    · exact hul
    · exact hbl
  · rw [if_neg hlen] at hl
    simp only [List.append_nil, List.mem_cons, List.not_mem_nil, or_false] at hl
    rcases hl with rfl | rfl
    · exact hext
    · exact hul

theorem splitNl_strip_joinLines (lines : List Str) (hne : lines ≠ [])
    (hgood : ∀ l ∈ lines, goodLine l) :
    splitNl (pyStrip (joinLinesNl lines)) = lines := by
  have hdecomp : lines.dropLast ++ [lines.getLast hne] = lines :=
    List.dropLast_append_getLast hne
  have hlast_mem : lines.getLast hne ∈ lines := List.getLast_mem hne
  have hlast_good := hgood _ hlast_mem
  have h1 : joinLinesNl lines = joinSepNl lines ++ ['\n'] := by
    conv_lhs => rw [← hdecomp]
    conv_rhs => rw [← hdecomp]
    exact joinLinesNl_eq_joinSep _ _
  have hsne : joinSepNl lines ≠ [] := by
    rw [← hdecomp]
    exact joinSepNl_ne_nil _ _ hlast_good.2.1
  have hlastq : (joinSepNl lines).getLast? = (lines.getLast hne).getLast? := by
    conv_lhs => rw [← hdecomp]
    exact getLast?_joinSepNl _ _ hlast_good.2.1
  obtain ⟨l0, t, rfl⟩ : ∃ l0 t, lines = l0 :: t := by
    cases lines with
    | nil => exact absurd rfl hne
    | cons a b => exact ⟨a, b, rfl⟩
  have hheadq : (joinSepNl (l0 :: t)).head? = l0.head? :=
    head?_joinSepNl l0 t (hgood l0 (List.mem_cons_self _ _)).2.1
  rw [h1, pyStrip_joinSep_newline _
      (fun c hc => pyStrip_self_head l0 (hgood l0 (List.mem_cons_self _ _)).1 c
        (hheadq ▸ hc))
      (fun c hc => pyStrip_self_last _ hlast_good.1 c (hlastq ▸ hc))
      hsne,
    splitNl_joinSepNl _ (fun l hl => (hgood l hl).2.2) hne]

theorem parse_m3u_generate (chans : List (Str × OrgEntry))
    (h : ∀ p ∈ chans, goodChan p) :
    parse_m3u_content (generate_m3u chans) =
      (chans.map fun p => (p.1, renderedInfo p, p.2.sources.headD [])).foldl
        addEvent [] := by
  have hgood : ∀ l ∈ str "#EXTM3U" :: chans.flatMap chLinesOf, goodLine l := by
    intro l hl
    rcases List.mem_cons.mp hl with rfl | hl
    · exact ⟨by decide, by decide, by decide⟩
    · obtain ⟨p, hp, hlp⟩ := List.mem_flatMap.mp hl
      exact goodLine_chLinesOf p (h p hp) l hlp
  have hsplit : splitNl (pyStrip (generate_m3u chans)) =
      str "#EXTM3U" :: chans.flatMap chLinesOf :=
    splitNl_strip_joinLines _ (by simp) hgood
  show (match splitNl (pyStrip (generate_m3u chans)) with
    | [] => ([] : List (Str × Info × List Str))
    | l0 :: rest =>
      if isPre (str "#EXTM3U") l0 then (parseLoop rest).foldl addEvent [] else []) = _
  rw [hsplit]
  show (if isPre (str "#EXTM3U") (str "#EXTM3U") then
      (parseLoop (chans.flatMap chLinesOf)).foldl addEvent [] else []) = _
  rw [if_pos (by decide), parseLoop_flatMap chans h]

theorem setK_absent (m : List (Str × α)) (k : Str) (v : α)
    (h : lookupK k m = none) : setK m k v = m ++ [(k, v)] := by
  induction m with
  | nil => rfl
  | cons hd tl ih =>
    obtain ⟨k', v'⟩ := hd
    simp only [lookupK] at h
    by_cases hk : k' = k
    · rw [if_pos hk] at h
      cases h
    · rw [if_neg hk] at h
      show (if k' = k then _ else (k', v') :: setK tl k v) = _
      rw [if_neg hk, ih h]
      rfl

theorem lookupK_append_none (k : Str) (a b : List (Str × α))
    (ha : lookupK k a = none) (hb : lookupK k b = none) :
    lookupK k (a ++ b) = none := by
  induction a with
  | nil => exact hb
  | cons hd tl ih =>
    obtain ⟨k', v'⟩ := hd
    simp only [lookupK] at ha ⊢
    by_cases hk : k' = k
    · rw [if_pos hk] at ha
      cases ha
    · rw [if_neg hk] at ha ⊢
      exact ih ha

theorem foldl_addEvent_acc (evs : List (Str × Info × Str))
    (d : List (Str × Info × List Str))
    (h : ∀ ev ∈ evs, lookupK ev.1 d = none)
    (hnd : (evs.map Prod.fst).Nodup) :
    evs.foldl addEvent d = d ++ evs.map fun ev => (ev.1, ev.2.1, [ev.2.2]) := by
  induction evs generalizing d with
  | nil => simp
  | cons ev t ih =>
    rw [List.map_cons, List.nodup_cons] at hnd
    rw [List.foldl_cons]
    have h0 : lookupK ev.1 d = none := h ev (List.mem_cons_self _ _)
    have hstep : addEvent d ev = d ++ [(ev.1, ev.2.1, [ev.2.2])] := by
      show (match lookupK ev.1 d with
        | some iu => setK d ev.1 (iu.1, iu.2 ++ [ev.2.2])
        | none => setK d ev.1 (ev.2.1, [ev.2.2])) = _
      rw [h0]
      exact setK_absent d ev.1 _ h0
    rw [hstep, ih _ ?_ hnd.2]
    · simp
    · intro e he
      refine lookupK_append_none _ _ _ (h e (List.mem_cons_of_mem _ he)) ?_
      have hne : e.1 ≠ ev.1 := by
        intro hx
        exact hnd.1 (hx ▸ List.mem_map_of_mem Prod.fst he)
      simp [lookupK, Ne.symm hne]

theorem foldl_addEvent_nodup (evs : List (Str × Info × Str))
    (hnd : (evs.map Prod.fst).Nodup) :
    evs.foldl addEvent [] = evs.map fun ev => (ev.1, ev.2.1, [ev.2.2]) := by
  rw [foldl_addEvent_acc evs [] (fun _ _ => rfl) hnd]
  rfl

/-- C9 (amended): rendering an organized collection with `generate_m3u` and
re-parsing it with `parse_m3u_content` reproduces exactly the collection's
`(channel key, primary URL)` pairs — in order — PROVIDED every channel has a
falsy rendered `tvg-id` (otherwise the re-parsed record is keyed by the
`tvg-id`, not the rendered channel name), the channel names are distinct,
stripped, non-empty and newline-free, the rendered `group-title`/`tvg-logo`
values contain no quote, comma or newline, and every source URL is stripped,
non-empty, newline-free and not `#`-prefixed. -/
theorem c9_amended_theorem (chans : List (Str × OrgEntry))
    (hgood : ∀ p ∈ chans, goodChan p)
    (hnd : (chans.map Prod.fst).Nodup) :
    parsedPairs (parse_m3u_content (generate_m3u chans)) = renderedPairs chans := by
  rw [parse_m3u_generate chans hgood,
    foldl_addEvent_nodup _ (by rw [List.map_map]; exact hnd)]
  simp only [parsedPairs, renderedPairs, List.map_map]
  rfl

theorem c9_witness :
    (∀ p ∈ [c9Chan], goodChan p) ∧ (([c9Chan].map Prod.fst).Nodup) ∧
      parsedPairs (parse_m3u_content (generate_m3u [c9Chan])) = renderedPairs [c9Chan] :=
  ⟨by decide, by decide, c9_amended_theorem [c9Chan] (by decide) (by decide)⟩
